import Mathlib

/-!
Verification of the funscript generation scripts (`scripts/generate_edging_script.py`,
with `scripts/verify_full_strokes.py` and `scripts/analyze_funscript.py` as read-only
consumers) against their natural-language specification.

The Python source is shallowly embedded below.  Python floats are modelled as
rationals (`ℚ`), Python ints as `ℤ`, `int(x)` as truncation toward zero
(`pyInt`), and `//` as floor division (`Int.fdiv`).  The standard-library
transcendental calls `math.sin(2*math.pi*p)` and `math.cos(math.pi*p)` are not
part of the repository; they are modelled by the rational Bhaskara I
approximation (`pySin2pi`, `pyCosPi`), which agrees with the real sine/cosine
to within 0.002 on the argument range the scripts use; every theorem below that
depends on a concrete sine value has a margin far exceeding that error, and the
remaining theorems hold for arbitrary values of these functions.

Randomness (`random.randint`, `random.random`, `random.uniform`,
`random.choice`) is modelled by an explicit `Oracle` of draw streams; a claim
about "every random draw" is quantified over every `Oracle` satisfying
`Oracle.Valid` (each draw lies in the range the corresponding Python call
guarantees).
-/

namespace Edging

-- Batteries marks the rational-number arithmetic irreducible, which would keep
-- concrete runs of the embedded code from evaluating; restore the default.
attribute [local semireducible] Rat.add Rat.mul Rat.sub Rat.inv

/-- Python `int(x)` on a rational: truncation toward zero. -/
def pyInt (q : ℚ) : ℤ := if q < 0 then ⌈q⌉ else ⌊q⌋

/-- Bhaskara I approximation of `sin (π y)` for `y ∈ [0,1]`. -/
def bhaskara (y : ℚ) : ℚ := 16 * y * (1 - y) / (5 - 4 * y * (1 - y))

/-- Rational model of the float computation `math.sin(progress * math.pi * 2)`
for `progress ∈ [0,1]` (the only arguments the source uses): accurate to
within 0.002 of the real sine. -/
def pySin2pi (p : ℚ) : ℚ := if p ≤ 1 / 2 then bhaskara (2 * p) else -bhaskara (2 * p - 1)

/-- Rational model of the float computation `math.cos(y * math.pi)` for
`y ∈ [0,1]`: accurate to within 0.002 of the real cosine. -/
def pyCosPi (y : ℚ) : ℚ := if y ≤ 1 / 2 then bhaskara (1 / 2 - y) else -bhaskara (y - 1 / 2)

/-- One keyframe of the motion timeline: `{"at": ..., "pos": ...}`. -/
structure Action where
  «at» : ℤ
  pos : ℤ
deriving DecidableEq

/-- `DURATION_MS = 30 * 60 * 1000`. -/
def DURATION_MS : ℤ := 30 * 60 * 1000

/-- `SPEED_VARIATION_INTERVAL = 60 * 1000`. -/
def SPEED_VARIATION_INTERVAL : ℤ := 60 * 1000

/-- `UP_SPEED_MULTIPLIER = 1.50`. -/
def UP_SPEED_MULTIPLIER : ℚ := 3 / 2

/-- `calculate_duration(distance, going_up, speed_multiplier)`. -/
def calculate_duration (distance : ℚ) (going_up : Bool) (speed_multiplier : ℚ) : ℤ :=
  let base_ms_per_unit : ℚ := 150
  let duration := distance * base_ms_per_unit / speed_multiplier
  let duration := if going_up then duration / UP_SPEED_MULTIPLIER else duration
  pyInt duration

/-- The clamp `max(0, min(100, z))` applied by the wave and gradual generators. -/
def clampPos (z : ℤ) : ℤ := max 0 (min 100 z)

/-- `generate_wave_motion(start_pos, end_pos, start_time, speed_mult)`.
`num_points` is the `random.randint(5, 7)` draw and `ampDraw i` the
`random.randint(5, 10)` amplitude draw of loop iteration `i` (the source draws
a fresh amplitude on every iteration of its sample loop). -/
def generate_wave_motion (num_points : ℕ) (ampDraw : ℕ → ℤ)
    (start_pos end_pos start_time : ℤ) (speed_mult : ℚ) : List Action × ℤ :=
  let going_up := decide (start_pos < end_pos)
  let distance : ℚ := ((end_pos - start_pos).natAbs : ℚ)
  let base_duration := calculate_duration distance going_up speed_mult
  let actions := (List.range (num_points + 1)).map fun (i : ℕ) =>
    let progress : ℚ := (i : ℚ) / (num_points : ℚ)
    let wave_amplitude := ampDraw i
    let wave_offset : ℚ :=
      if i ≠ 0 ∧ i ≠ num_points then (wave_amplitude : ℚ) * pySin2pi progress else 0
    let pos : ℚ := (start_pos : ℚ) + ((end_pos - start_pos : ℤ) : ℚ) * progress + wave_offset
    Action.mk (start_time + pyInt ((base_duration : ℚ) * progress)) (clampPos (pyInt pos))
  (actions, start_time + base_duration)

/-- `generate_gradual_motion(start_pos, end_pos, start_time, speed_mult)`;
`num_points` is the `random.randint(8, 10)` draw. -/
def generate_gradual_motion (num_points : ℕ)
    (start_pos end_pos start_time : ℤ) (speed_mult : ℚ) : List Action × ℤ :=
  let going_up := decide (start_pos < end_pos)
  let distance : ℚ := ((end_pos - start_pos).natAbs : ℚ)
  let base_duration := calculate_duration distance going_up speed_mult
  let actions := (List.range (num_points + 1)).map fun (i : ℕ) =>
    let progress : ℚ := (i : ℚ) / (num_points : ℚ)
    let eased_progress : ℚ := (pyCosPi (1 - progress) + 1) / 2
    let pos : ℚ := (start_pos : ℚ) + ((end_pos - start_pos : ℤ) : ℚ) * eased_progress
    Action.mk (start_time + pyInt ((base_duration : ℚ) * progress)) (clampPos (pyInt pos))
  (actions, start_time + base_duration)

/-- `generate_plateau_motion(start_pos, end_pos, start_time, speed_mult)`. -/
def generate_plateau_motion (start_pos end_pos start_time : ℤ) (speed_mult : ℚ) :
    List Action × ℤ :=
  let going_up := decide (start_pos < end_pos)
  let distance : ℚ := ((end_pos - start_pos).natAbs : ℚ)
  let base_duration := calculate_duration distance going_up speed_mult
  let num_segments : ℕ := 3
  let segment_distance : ℚ := distance / (num_segments : ℚ)
  let segment_duration := Int.fdiv base_duration ((num_segments : ℤ) * 2)
  let step := fun (st : ℤ × ℤ × List Action) (i : ℕ) =>
    -- loop body of `for i in range(num_segments)`
    let current_pos := st.1
    let current_time := st.2.1
    let acts := st.2.2
    let target_pos :=
      pyInt ((start_pos : ℚ) + segment_distance * ((i : ℚ) + 1) * (if going_up then 1 else -1))
    let acts := acts ++ [Action.mk current_time current_pos]
    let current_time := current_time + segment_duration
    let acts := acts ++ [Action.mk current_time target_pos]
    let current_time := current_time + segment_duration
    (target_pos, current_time, acts)
  let r := (List.range num_segments).foldl step (start_pos, start_time, ([] : List Action))
  (r.2.2 ++ [Action.mk r.2.1 end_pos], r.2.1)

/-- `add_pause(start_time)`; `pauseDraw` is the `random.randint(0, 3000)` draw. -/
def add_pause (pauseDraw : ℤ) (start_time : ℤ) : ℤ := start_time + pauseDraw

/-- `generate_full_stroke(start_pos, start_time, speed_mult)`; `tDraw` is the
`random.randint(10000, 12000)` total-duration draw.  Returns
`(actions, end_time, final position)`.  Note the source accepts but never uses
`speed_mult`. -/
def generate_full_stroke (tDraw start_pos start_time : ℤ) (speed_mult : ℚ) :
    List Action × ℤ × ℤ :=
  let positions : ℤ × ℤ × ℤ :=
    if start_pos < 50 then (start_pos, 100, 0) else (start_pos, 0, 100)
  let total_duration := tDraw
  let going_up_first := decide (positions.1 < positions.2.1)
  let first_duration :=
    pyInt (((total_duration : ℚ) / 2) / (if going_up_first then UP_SPEED_MULTIPLIER else 1))
  let leg1 := (List.range 8).map fun (i : ℕ) =>
    let progress : ℚ := (i : ℚ) / 7
    Action.mk (start_time + pyInt ((first_duration : ℚ) * progress))
      (pyInt ((positions.1 : ℚ) + ((positions.2.1 - positions.1 : ℤ) : ℚ) * progress))
  let going_up_second := decide (positions.2.1 < positions.2.2)
  let second_duration :=
    pyInt (((total_duration : ℚ) / 2) / (if going_up_second then UP_SPEED_MULTIPLIER else 1))
  let leg2 := (List.range 7).map fun (j : ℕ) =>
    let i : ℕ := j + 1
    let progress : ℚ := (i : ℚ) / 7
    Action.mk (start_time + first_duration + pyInt ((second_duration : ℚ) * progress))
      (pyInt ((positions.2.1 : ℚ) + ((positions.2.2 - positions.2.1 : ℤ) : ℚ) * progress))
  (leg1 ++ leg2, start_time + first_duration + second_duration, positions.2.2)

/-- The three regular motion shapes of `random.choice(['wave', 'gradual', 'plateau',
'gradual', 'wave'])`. -/
inductive MotionKind where
  | wave
  | gradual
  | plateau
deriving DecidableEq

/-- The choice list `['wave', 'gradual', 'plateau', 'gradual', 'wave']`. -/
def motionChoices : List MotionKind :=
  [MotionKind.wave, MotionKind.gradual, MotionKind.plateau, MotionKind.gradual, MotionKind.wave]

/-- The tease-target choice list `[15, 20, 85, 90]`. -/
def extremeChoices : List ℤ := [15, 20, 85, 90]

/-- Streams of random draws, one per kind of `random` call.  A stream function
takes the index of the call (how many draws of that kind happened before) and,
for `randint`/`uniform`, the bounds of the call. -/
structure Oracle where
  randint : ℕ → ℤ → ℤ → ℤ
  rand : ℕ → ℚ
  uniform : ℕ → ℚ → ℚ → ℚ
  motionChoice : ℕ → ℕ
  extremeChoice : ℕ → ℕ

/-- The guarantees Python's `random` module gives for each draw:
`randint(lo, hi) ∈ [lo, hi]`, `random() ∈ [0, 1)`, `uniform(a, b) ∈ [a, b]`,
and `choice` indices within the respective list lengths. -/
def Oracle.Valid (o : Oracle) : Prop :=
  (∀ k lo hi, lo ≤ hi → lo ≤ o.randint k lo hi ∧ o.randint k lo hi ≤ hi) ∧
  (∀ k, 0 ≤ o.rand k ∧ o.rand k < 1) ∧
  (∀ k a b, a ≤ b → a ≤ o.uniform k a b ∧ o.uniform k a b ≤ b) ∧
  (∀ k, o.motionChoice k < 5) ∧
  (∀ k, o.extremeChoice k < 4)

/-- The scheduler's mutable state in `generate_edging_script`, plus one
consumed-draw counter per oracle stream. -/
structure GenState where
  actions : List Action
  current_time : ℤ
  current_pos : ℤ
  full_stroke_times : List ℤ
  full_stroke_index : ℕ
  next_speed_change : ℤ
  speed_multiplier : ℚ
  in_speed_variation : Bool
  kRandint : ℕ
  kRand : ℕ
  kUniform : ℕ
  kMotion : ℕ
  kExtreme : ℕ

/-- Insertion into a list sorted ascending by `at`, keeping an earlier element
in front of later elements with an equal key (stability). -/
def insertByAt (a : Action) : List Action → List Action
  | [] => [a]
  | b :: l => if a.«at» ≤ b.«at» then a :: b :: l else b :: insertByAt a l

/-- Stable ascending sort by `at`: the model of
`sorted(actions, key=lambda x: x["at"])`. -/
def sortByAt : List Action → List Action
  | [] => []
  | a :: l => insertByAt a (sortByAt l)

/-- The deduplication loop of `generate_edging_script`: keep an action iff its
`at` differs from the `at` of the last kept action (`last_time` starts at -1). -/
def dedupeLoop : List Action → ℤ → List Action
  | [], _ => []
  | a :: l, t => if a.«at» ≠ t then a :: dedupeLoop l a.«at» else dedupeLoop l t

/-- The sort-and-deduplicate finalization step (source lines 242-248). -/
def finalizeActions (l : List Action) : List Action := dedupeLoop (sortByAt l) (-1)

/-- Insertion into an ascending list of integers. -/
def insertInt (x : ℤ) : List ℤ → List ℤ
  | [] => [x]
  | y :: l => if x ≤ y then x :: y :: l else y :: insertInt x l

/-- Ascending sort of integers: the model of `sorted(...)` on the five
full-stroke trigger times. -/
def sortInts : List ℤ → List ℤ
  | [] => []
  | x :: l => insertInt x (sortInts l)

/-- The speed-variation update at the top of each loop iteration:
`if current_time >= next_speed_change: ...`. -/
def speedStep (o : Oracle) (s : GenState) : GenState :=
  if s.next_speed_change ≤ s.current_time then
    if s.in_speed_variation then
      { s with speed_multiplier := 1, in_speed_variation := false,
               next_speed_change := s.next_speed_change + SPEED_VARIATION_INTERVAL }
    else
      { s with speed_multiplier := 1 + o.uniform s.kUniform (1 / 10) (3 / 10),
               in_speed_variation := true,
               next_speed_change := s.next_speed_change + SPEED_VARIATION_INTERVAL,
               kUniform := s.kUniform + 1 }
  else s

/-- The random-pause step:
`if random.random() < 0.15 and not in_speed_variation: ...` (the `random()`
draw is consumed in every iteration; the pause-length `randint(0, 3000)` draw
only when the condition holds, and the held-position sample is appended only
when the new time strictly exceeds the old one). -/
def pauseStep (o : Oracle) (s : GenState) : GenState :=
  if (decide (o.rand s.kRand < 3 / 20) && !s.in_speed_variation) = true then
    let pause_time := add_pause (o.randint s.kRandint 0 3000) s.current_time
    let s' := { s with kRand := s.kRand + 1, kRandint := s.kRandint + 1 }
    if s.current_time < pause_time then
      { s' with actions := s'.actions ++ [Action.mk pause_time s'.current_pos],
                current_time := pause_time }
    else s'
  else { s with kRand := s.kRand + 1 }

/-- The target-position choice: with probability 0.15 a tease target from
`[15, 20, 85, 90]`, otherwise a zone-biased `randint` draw. -/
def chooseTarget (o : Oracle) (s : GenState) : ℤ × GenState :=
  let isExtreme := decide (o.rand s.kRand < 3 / 20)
  let s4 := { s with kRand := s.kRand + 1 }
  if isExtreme = true then
    (List.getD extremeChoices (o.extremeChoice s4.kExtreme) 15,
     { s4 with kExtreme := s4.kExtreme + 1 })
  else if s4.current_pos < 35 then
    (o.randint s4.kRandint 45 85, { s4 with kRandint := s4.kRandint + 1 })
  else if 75 < s4.current_pos then
    (o.randint s4.kRandint 25 65, { s4 with kRandint := s4.kRandint + 1 })
  else
    (o.randint s4.kRandint 25 85, { s4 with kRandint := s4.kRandint + 1 })

/-- Invoking the chosen regular generator and appending its samples. -/
def motionStep (o : Oracle) (target_pos : ℤ) (motion_type : MotionKind) (s : GenState) :
    GenState :=
  let gen :=
    match motion_type with
    | MotionKind.wave =>
      let np := (o.randint s.kRandint 5 7).toNat
      let amp := fun i => o.randint (s.kRandint + 1 + i) 5 10
      let r := generate_wave_motion np amp s.current_pos target_pos s.current_time
        s.speed_multiplier
      (r.1, r.2, { s with kRandint := s.kRandint + 1 + (np + 1) })
    | MotionKind.gradual =>
      let np := (o.randint s.kRandint 8 10).toNat
      let r := generate_gradual_motion np s.current_pos target_pos s.current_time
        s.speed_multiplier
      (r.1, r.2, { s with kRandint := s.kRandint + 1 })
    | MotionKind.plateau =>
      let r := generate_plateau_motion s.current_pos target_pos s.current_time
        s.speed_multiplier
      (r.1, r.2, s)
  let s6 := gen.2.2
  { s6 with actions := s6.actions ++ gen.1, current_time := gen.2.1,
            current_pos := target_pos }

/-- One iteration of the `while current_time < DURATION_MS` loop.  Returns the
new state and whether the safety-valve `break` fired. -/
def loopBody (o : Oracle) (s : GenState) : GenState × Bool :=
  let s := speedStep o s
  -- `if full_stroke_index < len(full_stroke_times) and current_time >= ...[index]:`
  if s.full_stroke_index < s.full_stroke_times.length ∧
      s.full_stroke_times.getD s.full_stroke_index 0 ≤ s.current_time then
    let tD := o.randint s.kRandint 10000 12000
    let r := generate_full_stroke tD s.current_pos s.current_time s.speed_multiplier
    ({ s with actions := s.actions ++ r.1, current_time := r.2.1, current_pos := r.2.2,
              full_stroke_index := s.full_stroke_index + 1, kRandint := s.kRandint + 1 },
     false)
  else
    let s2 := pauseStep o s
    let motion_type := List.getD motionChoices (o.motionChoice s2.kMotion) MotionKind.wave
    let s3 := { s2 with kMotion := s2.kMotion + 1 }
    let tgt := chooseTarget o s3
    let s7 := motionStep o tgt.1 motion_type tgt.2
    -- `if current_time > DURATION_MS + 60000: break`
    if DURATION_MS + 60000 < s7.current_time then (s7, true) else (s7, false)

/-- The scheduler loop with explicit fuel: `none` means the fuel ran out before
the loop finished (the source loop has no such bound). -/
def loopRun (o : Oracle) : ℕ → GenState → Option GenState
  | 0, _ => none
  | fuel + 1, s =>
    if s.current_time < DURATION_MS then
      let r := loopBody o s
      if r.2 then some r.1 else loopRun o fuel r.1
    else some s

/-- The state at the top of `generate_edging_script`: one initial action
`{"at": 0, "pos": 50}`, the five sorted full-stroke trigger times (oracle
`randint` calls 0-4), and the initial speed-variation bookkeeping. -/
def initState (o : Oracle) : GenState :=
  { actions := [Action.mk 0 50]
    current_time := 0
    current_pos := 50
    full_stroke_times :=
      sortInts ((List.range 5).map fun k => o.randint k 60000 (DURATION_MS - 60000))
    full_stroke_index := 0
    next_speed_change := SPEED_VARIATION_INTERVAL
    speed_multiplier := 1
    in_speed_variation := false
    kRandint := 5
    kRand := 0
    kUniform := 0
    kMotion := 0
    kExtreme := 0 }

/-- The accumulated action list right before the sort-and-dedupe finalizer:
the loop's output plus the closing `{"at": DURATION_MS, "pos": 50}` sample when
the last action falls short of the target duration. -/
def buildActions (o : Oracle) (fuel : ℕ) : Option (List Action) :=
  (loopRun o fuel (initState o)).map fun s =>
    if (s.actions.getLastD (Action.mk 0 50)).«at» < DURATION_MS then
      s.actions ++ [Action.mk DURATION_MS 50]
    else s.actions

/-- `generate_edging_script()`: the loop, the closing sample, then the
sort-and-dedupe finalizer. -/
def generate_edging_script (o : Oracle) (fuel : ℕ) : Option (List Action) :=
  (buildActions o fuel).map finalizeActions

/-- The nondecreasing-by-`at` predicate on action lists. -/
def leAt (a b : Action) : Prop := a.«at» ≤ b.«at»

/-- The strictly-increasing-by-`at` predicate on action lists. -/
def ltAt (a b : Action) : Prop := a.«at» < b.«at»

/-- Range check `0 ≤ pos ≤ 100` on one action. -/
def posInRange (a : Action) : Bool := decide (0 ≤ a.pos ∧ a.pos ≤ 100)

/-- A property of the finished sequence, stated over the optional result of the
fuelled run: if the run finished, its action list starts at `at = 0` and is
strictly ascending by `at`. -/
def finalOk : Option (List Action) → Prop
  | none => True
  | some l => l ≠ [] ∧ l.head?.map Action.«at» = some 0 ∧ l.Pairwise ltAt

/-- A property of the pre-finalizer list, stated over the optional result of
the fuelled run: if the run finished, the accumulated list is already
nondecreasing by `at` and the stable sort leaves it unchanged. -/
def preSortOk : Option (List Action) → Prop
  | none => True
  | some l => l.Pairwise leAt ∧ sortByAt l = l

/-- A concrete valid draw sequence on which the scheduler terminates quickly:
zone targets alternate between 85 and 25, motions are waves, pauses and tease
targets never trigger, full strokes trigger from t = 60 s. -/
def oW : Oracle :=
  { randint := fun _ lo hi =>
      min hi (max lo (if lo = 45 then 85 else if hi = 65 then 25 else if lo = 25 then 85 else lo))
    rand := fun _ => 1 / 2
    uniform := fun _ a _ => a
    motionChoice := fun _ => 0
    extremeChoice := fun _ => 0 }

/-- A concrete valid draw sequence on which the scheduler loops forever: every
mid-zone target draw (`randint(25, 85)`) returns 50, the current position, so
every motion segment has distance 0 and `current_time` never advances. -/
def oBad : Oracle :=
  { randint := fun _ lo hi => min hi (max lo (if lo = 25 ∧ hi = 85 then 50 else lo))
    rand := fun _ => 1 / 2
    uniform := fun _ a _ => a
    motionChoice := fun _ => 0
    extremeChoice := fun _ => 0 }

/-- The amplitude draw sequence used to refute the single-amplitude reading of
the wave generator: the sample-1 amplitude draw is 5, all others are 10 (all
within `randint(5, 10)` bounds). -/
def c8AmpDraw : ℕ → ℤ := fun i => if i = 1 then 5 else 10

/-- The wave generator as the spec phrases it: a single amplitude `amp`, drawn
once per call, used for the offset of every sample, forced to zero at the
first and last sample. -/
def generate_wave_motion_specAmp (num_points : ℕ) (amp : ℤ)
    (start_pos end_pos start_time : ℤ) (speed_mult : ℚ) : List Action × ℤ :=
  let going_up := decide (start_pos < end_pos)
  let distance : ℚ := ((end_pos - start_pos).natAbs : ℚ)
  let base_duration := calculate_duration distance going_up speed_mult
  let actions := (List.range (num_points + 1)).map fun (i : ℕ) =>
    let progress : ℚ := (i : ℚ) / (num_points : ℚ)
    let wave_offset : ℚ :=
      if i ≠ 0 ∧ i ≠ num_points then (amp : ℚ) * pySin2pi progress else 0
    let pos : ℚ := (start_pos : ℚ) + ((end_pos - start_pos : ℤ) : ℚ) * progress + wave_offset
    Action.mk (start_time + pyInt ((base_duration : ℚ) * progress)) (clampPos (pyInt pos))
  (actions, start_time + base_duration)

/-- The per-sample amplitude reading of the wave generator (the amended claim):
sample `i`'s offset uses the `i`-th amplitude draw `ampDraw i`, zero at the
first and last sample. -/
def waveSamplesPerDraw (num_points : ℕ) (ampDraw : ℕ → ℤ)
    (start_pos end_pos start_time : ℤ) (speed_mult : ℚ) : List Action :=
  let going_up := decide (start_pos < end_pos)
  let distance : ℚ := ((end_pos - start_pos).natAbs : ℚ)
  let base_duration := calculate_duration distance going_up speed_mult
  (List.range (num_points + 1)).map fun (i : ℕ) =>
    let progress : ℚ := (i : ℚ) / (num_points : ℚ)
    let wave_offset : ℚ :=
      if i ≠ 0 ∧ i ≠ num_points then (ampDraw i : ℚ) * pySin2pi progress else 0
    let pos : ℚ := (start_pos : ℚ) + ((end_pos - start_pos : ℤ) : ℚ) * progress + wave_offset
    Action.mk (start_time + pyInt ((base_duration : ℚ) * progress)) (clampPos (pyInt pos))

/-- The scheduler invariant: every accumulated action has a non-negative
timestamp no later than the current time, the initial action is present, the
current time is non-negative, the speed multiplier is positive, and the
accumulated list is nondecreasing by `at`. -/
def Inv (s : GenState) : Prop :=
  (∀ a ∈ s.actions, 0 ≤ a.«at» ∧ a.«at» ≤ s.current_time) ∧
  Action.mk 0 50 ∈ s.actions ∧
  0 ≤ s.current_time ∧
  0 < s.speed_multiplier ∧
  s.actions.Pairwise leAt

/-- The stuck-state invariant of the non-terminating draw sequence `oBad`:
time froze at 0, the position froze at 50, and the speed/full-stroke
bookkeeping never fires. -/
def BadInv (s : GenState) : Prop :=
  s.current_time = 0 ∧ s.current_pos = 50 ∧ s.in_speed_variation = false ∧
  s.next_speed_change = 60000 ∧
  s.full_stroke_times = [60000, 60000, 60000, 60000, 60000] ∧
  s.full_stroke_index = 0 ∧ s.speed_multiplier = 1

/-- The constant amplitude draw 10 (a valid `randint(5, 10)` draw). -/
def constAmp10 : ℕ → ℤ := fun _ => 10

/-- The amplitude values `randint(5, 10)` can return. -/
def ampRange : List ℤ := [5, 6, 7, 8, 9, 10]

/-- Whether the single-amplitude variant at amplitude `A` differs from the
run the source produces under the draws `c8AmpDraw`. -/
def c8differs (A : ℤ) : Bool :=
  decide ((generate_wave_motion_specAmp 5 A 50 50 0 1).1 ≠
    (generate_wave_motion 5 c8AmpDraw 50 50 0 1).1)

/-- Whether an action sits at the upper extreme position. -/
def atHundred (a : Action) : Bool := decide (a.pos = 100)

instance : DecidableRel leAt :=
  fun a b => inferInstanceAs (Decidable (a.«at» ≤ b.«at»))

instance : DecidableRel ltAt :=
  fun a b => inferInstanceAs (Decidable (a.«at» < b.«at»))

theorem pyInt_intCast (z : ℤ) : pyInt (z : ℚ) = z := by
  unfold pyInt
  split
  · exact Int.ceil_intCast z
  · exact Int.floor_intCast z

theorem pyInt_of_nonneg {q : ℚ} (h : 0 ≤ q) : pyInt q = ⌊q⌋ := by
  unfold pyInt
  rw [if_neg (not_lt.mpr h)]

theorem pyInt_nonneg {q : ℚ} (h : 0 ≤ q) : 0 ≤ pyInt q := by
  rw [pyInt_of_nonneg h]
  exact Int.floor_nonneg.mpr h

theorem pyInt_mono {a b : ℚ} (h : a ≤ b) : pyInt a ≤ pyInt b := by
  unfold pyInt
  rcases lt_or_le a 0 with ha | ha
  · rcases lt_or_le b 0 with hb | hb
    · rw [if_pos ha, if_pos hb]
      exact Int.ceil_le_ceil h
    · rw [if_pos ha, if_neg (not_lt.mpr hb)]
      refine le_trans (Int.ceil_le.mpr ?_) (Int.floor_nonneg.mpr hb)
      exact_mod_cast ha.le
  · have hb : (0 : ℚ) ≤ b := le_trans ha h
    rw [if_neg (not_lt.mpr ha), if_neg (not_lt.mpr hb)]
    exact Int.floor_le_floor h

theorem calculate_duration_true (d m : ℚ) :
    calculate_duration d true m = pyInt (d * 150 / m / (3 / 2)) := rfl

theorem calculate_duration_false (d m : ℚ) :
    calculate_duration d false m = pyInt (d * 150 / m) := rfl

theorem calculate_duration_nonneg {d m : ℚ} (up : Bool) (hd : 0 ≤ d) (hm : 0 < m) :
    0 ≤ calculate_duration d up m := by
  unfold calculate_duration UP_SPEED_MULTIPLIER
  apply pyInt_nonneg
  cases up <;> simp <;> positivity

theorem pyInt_zero : pyInt 0 = 0 := by decide

theorem progress_nonneg (i : ℕ) (den : ℚ) (hden : 0 ≤ den) : 0 ≤ (i : ℚ) / den := by
  positivity

theorem progress_le_one {i n : ℕ} (h : i ≤ n) : (i : ℚ) / (n : ℚ) ≤ 1 := by
  rcases Nat.eq_zero_or_pos n with rfl | hn
  · simp
  · rw [div_le_one (by exact_mod_cast hn)]
    exact_mod_cast h

theorem progress_mono {i j : ℕ} (den : ℚ) (hden : 0 ≤ den) (h : i ≤ j) :
    (i : ℚ) / den ≤ (j : ℚ) / den := by
  rcases eq_or_lt_of_le hden with rfl | hpos
  · simp
  · rw [div_le_div_iff_of_pos_right hpos]
    exact_mod_cast h

theorem progress_self {n : ℕ} (hn : 1 ≤ n) : (n : ℚ) / (n : ℚ) = 1 := by
  have : (n : ℚ) ≠ 0 := by
    have : 0 < n := hn
    positivity
  exact div_self this

theorem pyInt_mul_nonneg {B : ℤ} (hB : 0 ≤ B) {q : ℚ} (hq : 0 ≤ q) :
    0 ≤ pyInt ((B : ℚ) * q) :=
  pyInt_nonneg (mul_nonneg (by exact_mod_cast hB) hq)

theorem pyInt_mul_le {B : ℤ} (hB : 0 ≤ B) {q : ℚ} (hq : q ≤ 1) :
    pyInt ((B : ℚ) * q) ≤ B := by
  have h1 : (B : ℚ) * q ≤ (B : ℚ) * 1 :=
    mul_le_mul_of_nonneg_left hq (by exact_mod_cast hB)
  calc pyInt ((B : ℚ) * q) ≤ pyInt ((B : ℚ) * 1) := pyInt_mono h1
    _ = B := by rw [mul_one, pyInt_intCast]

theorem mem_insertByAt {a x : Action} {l : List Action} :
    x ∈ insertByAt a l ↔ x = a ∨ x ∈ l := by
  induction l with
  | nil => simp [insertByAt]
  | cons b t ih =>
    unfold insertByAt
    split
    · exact List.mem_cons
    · rw [List.mem_cons, ih, List.mem_cons]
      tauto

theorem insertByAt_pairwise {a : Action} {l : List Action} (h : l.Pairwise leAt) :
    (insertByAt a l).Pairwise leAt := by
  induction l with
  | nil => simp [insertByAt]
  | cons b t ih =>
    rw [List.pairwise_cons] at h
    obtain ⟨hb, ht⟩ := h
    unfold insertByAt
    split
    case isTrue hle =>
      refine List.Pairwise.cons ?_ (List.Pairwise.cons hb ht)
      intro x hx
      rcases List.mem_cons.mp hx with rfl | hx'
      · exact hle
      · exact le_trans hle (hb x hx')
    case isFalse hle =>
      refine List.Pairwise.cons ?_ (ih ht)
      intro x hx
      rcases mem_insertByAt.mp hx with rfl | hx'
      · exact le_of_lt (lt_of_not_le hle)
      · exact hb x hx'

theorem sortByAt_pairwise (l : List Action) : (sortByAt l).Pairwise leAt := by
  induction l with
  | nil => simp [sortByAt]
  | cons a t ih => exact insertByAt_pairwise ih

theorem mem_sortByAt {x : Action} {l : List Action} : x ∈ sortByAt l ↔ x ∈ l := by
  induction l with
  | nil => simp [sortByAt]
  | cons a t ih =>
    show x ∈ insertByAt a (sortByAt t) ↔ x ∈ a :: t
    rw [mem_insertByAt, List.mem_cons, ih]

theorem sortByAt_of_pairwise : ∀ {l : List Action}, l.Pairwise leAt → sortByAt l = l := by
  intro l
  induction l with
  | nil => intro _; rfl
  | cons a t ih =>
    intro h
    rw [List.pairwise_cons] at h
    obtain ⟨ha, ht⟩ := h
    show insertByAt a (sortByAt t) = a :: t
    rw [ih ht]
    cases t with
    | nil => rfl
    | cons b t' =>
      show (if a.«at» ≤ b.«at» then a :: b :: t' else b :: insertByAt a t') = a :: b :: t'
      rw [if_pos (show a.«at» ≤ b.«at» from ha b (List.mem_cons_self b t'))]

theorem dedupe_strong :
    ∀ (l : List Action) (t : ℤ), l.Pairwise leAt → (∀ x ∈ l, t ≤ x.«at») →
      (dedupeLoop l t).Pairwise ltAt ∧ ∀ x ∈ dedupeLoop l t, x ∈ l ∧ t < x.«at» := by
  intro l
  induction l with
  | nil =>
    intro t _ _
    exact ⟨by simp [dedupeLoop], by simp [dedupeLoop]⟩
  | cons a tl ih =>
    intro t hp hge
    rw [List.pairwise_cons] at hp
    obtain ⟨ha, htl⟩ := hp
    have hta : t ≤ a.«at» := hge a (List.mem_cons_self a tl)
    unfold dedupeLoop
    split
    case isTrue hne =>
      have hlt : t < a.«at» := lt_of_le_of_ne hta (fun e => hne e.symm)
      obtain ⟨hpw, hmem⟩ := ih a.«at» htl ha
      refine ⟨List.Pairwise.cons (fun x hx => (hmem x hx).2) hpw, ?_⟩
      intro x hx
      rcases List.mem_cons.mp hx with rfl | hx'
      · exact ⟨List.mem_cons_self x tl, hlt⟩
      · obtain ⟨hxl, hxgt⟩ := hmem x hx'
        exact ⟨List.mem_cons_of_mem a hxl, lt_of_le_of_lt hta hxgt⟩
    case isFalse hne =>
      push_neg at hne
      obtain ⟨hpw, hmem⟩ := ih t htl (fun x hx => hne ▸ ha x hx)
      exact ⟨hpw, fun x hx => ⟨List.mem_cons_of_mem a (hmem x hx).1, (hmem x hx).2⟩⟩

theorem dedupe_pairwise :
    ∀ (l : List Action) (t : ℤ), l.Pairwise leAt → (dedupeLoop l t).Pairwise ltAt := by
  intro l
  induction l with
  | nil => intro t _; simp [dedupeLoop]
  | cons a tl ih =>
    intro t h
    rw [List.pairwise_cons] at h
    obtain ⟨ha, htl⟩ := h
    unfold dedupeLoop
    split
    case isTrue hne =>
      refine List.Pairwise.cons ?_ (ih a.«at» htl)
      intro x hx
      exact ((dedupe_strong tl a.«at» htl ha).2 x hx).2
    case isFalse hne =>
      exact ih t htl

theorem dedupe_head_ne :
    ∀ (l : List Action) (t : ℤ) (a : Action), (dedupeLoop l t).head? = some a → a.«at» ≠ t := by
  intro l
  induction l with
  | nil => intro t a h; simp [dedupeLoop] at h
  | cons b tl ih =>
    intro t a h
    unfold dedupeLoop at h
    split at h
    case isTrue hne =>
      simp only [List.head?_cons, Option.some.injEq] at h
      exact h ▸ hne
    case isFalse hne =>
      exact ih t a h

theorem dedupe_eq_self :
    ∀ (l : List Action) (t : ℤ), l.Pairwise ltAt →
      (∀ a, l.head? = some a → a.«at» ≠ t) → dedupeLoop l t = l := by
  intro l
  induction l with
  | nil => intro t _ _; rfl
  | cons a tl ih =>
    intro t hp hhead
    rw [List.pairwise_cons] at hp
    obtain ⟨ha, htl⟩ := hp
    have hne : a.«at» ≠ t := hhead a rfl
    unfold dedupeLoop
    rw [if_pos hne]
    congr 1
    refine ih a.«at» htl ?_
    intro b hb
    have hbmem : b ∈ tl := List.mem_of_mem_head? hb
    exact ne_of_gt (ha b hbmem)

theorem wave_def (n : ℕ) (amp : ℕ → ℤ) (sp ep st : ℤ) (m : ℚ) :
    generate_wave_motion n amp sp ep st m =
      ((List.range (n + 1)).map fun (i : ℕ) => Action.mk
        (st + pyInt ((calculate_duration ((ep - sp).natAbs : ℚ) (decide (sp < ep)) m : ℚ) *
          ((i : ℚ) / (n : ℚ))))
        (clampPos (pyInt ((sp : ℚ) + ((ep - sp : ℤ) : ℚ) * ((i : ℚ) / (n : ℚ)) +
          (if i ≠ 0 ∧ i ≠ n then (amp i : ℚ) * pySin2pi ((i : ℚ) / (n : ℚ)) else 0)))),
       st + calculate_duration ((ep - sp).natAbs : ℚ) (decide (sp < ep)) m) := rfl

theorem gradual_def (n : ℕ) (sp ep st : ℤ) (m : ℚ) :
    generate_gradual_motion n sp ep st m =
      ((List.range (n + 1)).map fun (i : ℕ) => Action.mk
        (st + pyInt ((calculate_duration ((ep - sp).natAbs : ℚ) (decide (sp < ep)) m : ℚ) *
          ((i : ℚ) / (n : ℚ))))
        (clampPos (pyInt ((sp : ℚ) + ((ep - sp : ℤ) : ℚ) *
          ((pyCosPi (1 - (i : ℚ) / (n : ℚ)) + 1) / 2)))),
       st + calculate_duration ((ep - sp).natAbs : ℚ) (decide (sp < ep)) m) := rfl

theorem sampleRun_facts {n : ℕ} {B t : ℤ} {p : ℕ → ℤ} (hn : 1 ≤ n) (hB : 0 ≤ B) :
    ((List.range (n + 1)).map fun (i : ℕ) =>
        Action.mk (t + pyInt ((B : ℚ) * ((i : ℚ) / (n : ℚ)))) (p i)) ≠ [] ∧
    (((List.range (n + 1)).map fun (i : ℕ) =>
        Action.mk (t + pyInt ((B : ℚ) * ((i : ℚ) / (n : ℚ)))) (p i)).head?).map Action.«at» =
      some t ∧
    (((List.range (n + 1)).map fun (i : ℕ) =>
        Action.mk (t + pyInt ((B : ℚ) * ((i : ℚ) / (n : ℚ)))) (p i)).getLast?).map Action.«at» =
      some (t + B) ∧
    ((List.range (n + 1)).map fun (i : ℕ) =>
        Action.mk (t + pyInt ((B : ℚ) * ((i : ℚ) / (n : ℚ)))) (p i)).Pairwise leAt ∧
    ∀ a ∈ (List.range (n + 1)).map fun (i : ℕ) =>
        Action.mk (t + pyInt ((B : ℚ) * ((i : ℚ) / (n : ℚ)))) (p i),
      t ≤ a.«at» ∧ a.«at» ≤ t + B := by
  refine ⟨by simp, ?_, ?_, ?_, ?_⟩
  · rw [List.head?_map, List.head?_range]
    simp [pyInt_zero]
  · have hr : List.range (n + 1) = List.range n ++ [n] := List.range_succ n
    rw [List.getLast?_map, hr, List.getLast?_concat]
    simp [progress_self hn, pyInt_intCast]
  · rw [List.pairwise_map]
    refine List.Pairwise.imp_of_mem ?_ (List.pairwise_lt_range (n + 1))
    intro i j hi hj hij
    show t + pyInt ((B : ℚ) * ((i : ℚ) / (n : ℚ))) ≤ t + pyInt ((B : ℚ) * ((j : ℚ) / (n : ℚ)))
    have : (i : ℚ) / (n : ℚ) ≤ (j : ℚ) / (n : ℚ) :=
      progress_mono (n : ℚ) (by positivity) (le_of_lt hij)
    have := pyInt_mono
      (mul_le_mul_of_nonneg_left this (show (0 : ℚ) ≤ (B : ℚ) by exact_mod_cast hB))
    omega
  · intro a ha
    rw [List.mem_map] at ha
    obtain ⟨i, hi, rfl⟩ := ha
    rw [List.mem_range] at hi
    constructor
    · have := pyInt_mul_nonneg hB (progress_nonneg i (n : ℚ) (by positivity))
      show t ≤ t + pyInt ((B : ℚ) * ((i : ℚ) / (n : ℚ)))
      omega
    · have := pyInt_mul_le hB (progress_le_one (Nat.lt_succ_iff.mp hi))
      show t + pyInt ((B : ℚ) * ((i : ℚ) / (n : ℚ))) ≤ t + B
      omega

theorem plateau_def (sp ep st : ℤ) (m : ℚ) :
    generate_plateau_motion sp ep st m =
      (let B := calculate_duration ((ep - sp).natAbs : ℚ) (decide (sp < ep)) m
       let d := Int.fdiv B 6
       let dir : ℚ := if decide (sp < ep) then 1 else -1
       let dist : ℚ := ((ep - sp).natAbs : ℚ)
       let t1 := pyInt ((sp : ℚ) + dist / 3 * (0 + 1) * dir)
       let t2 := pyInt ((sp : ℚ) + dist / 3 * (1 + 1) * dir)
       let t3 := pyInt ((sp : ℚ) + dist / 3 * (2 + 1) * dir)
       ([Action.mk st sp, Action.mk (st + d) t1,
         Action.mk (st + d + d) t1, Action.mk (st + d + d + d) t2,
         Action.mk (st + d + d + d + d) t2, Action.mk (st + d + d + d + d + d) t3,
         Action.mk (st + d + d + d + d + d + d) ep],
        st + d + d + d + d + d + d)) := rfl

theorem sampleRun2_facts {n : ℕ} {B u : ℤ} {p : ℕ → ℤ} (hn : 1 ≤ n) (hB : 0 ≤ B) :
    ((List.range n).map fun (j : ℕ) =>
        Action.mk (u + pyInt ((B : ℚ) * (((j + 1 : ℕ) : ℚ) / (n : ℚ)))) (p j)) ≠ [] ∧
    (((List.range n).map fun (j : ℕ) =>
        Action.mk (u + pyInt ((B : ℚ) * (((j + 1 : ℕ) : ℚ) / (n : ℚ)))) (p j)).getLast?).map
      Action.«at» = some (u + B) ∧
    ((List.range n).map fun (j : ℕ) =>
        Action.mk (u + pyInt ((B : ℚ) * (((j + 1 : ℕ) : ℚ) / (n : ℚ)))) (p j)).Pairwise leAt ∧
    ∀ a ∈ (List.range n).map fun (j : ℕ) =>
        Action.mk (u + pyInt ((B : ℚ) * (((j + 1 : ℕ) : ℚ) / (n : ℚ)))) (p j),
      u ≤ a.«at» ∧ a.«at» ≤ u + B := by
  obtain ⟨n', rfl⟩ : ∃ n', n = n' + 1 := ⟨n - 1, by omega⟩
  refine ⟨by simp, ?_, ?_, ?_⟩
  · have hr : List.range (n' + 1) = List.range n' ++ [n'] := List.range_succ n'
    rw [List.getLast?_map, hr, List.getLast?_concat]
    have h1 : ((n' + 1 : ℕ) : ℚ) / ((n' + 1 : ℕ) : ℚ) = 1 := progress_self hn
    show some (u + pyInt ((B : ℚ) * (((n' + 1 : ℕ) : ℚ) / ((n' + 1 : ℕ) : ℚ)))) =
      some (u + B)
    rw [h1, mul_one, pyInt_intCast]
  · rw [List.pairwise_map]
    refine List.Pairwise.imp_of_mem ?_ (List.pairwise_lt_range (n' + 1))
    intro i j hi hj hij
    show u + pyInt ((B : ℚ) * (((i + 1 : ℕ) : ℚ) / ((n' + 1 : ℕ) : ℚ))) ≤
      u + pyInt ((B : ℚ) * (((j + 1 : ℕ) : ℚ) / ((n' + 1 : ℕ) : ℚ)))
    have : ((i + 1 : ℕ) : ℚ) / ((n' + 1 : ℕ) : ℚ) ≤ ((j + 1 : ℕ) : ℚ) / ((n' + 1 : ℕ) : ℚ) :=
      progress_mono _ (by positivity) (by omega)
    have := pyInt_mono
      (mul_le_mul_of_nonneg_left this (show (0 : ℚ) ≤ (B : ℚ) by exact_mod_cast hB))
    omega
  · intro a ha
    rw [List.mem_map] at ha
    obtain ⟨j, hj, rfl⟩ := ha
    rw [List.mem_range] at hj
    constructor
    · have := pyInt_mul_nonneg hB (progress_nonneg (j + 1) ((n' + 1 : ℕ) : ℚ) (by positivity))
      show u ≤ u + pyInt ((B : ℚ) * (((j + 1 : ℕ) : ℚ) / ((n' + 1 : ℕ) : ℚ)))
      omega
    · have := pyInt_mul_le hB (progress_le_one (show j + 1 ≤ n' + 1 by omega))
      show u + pyInt ((B : ℚ) * (((j + 1 : ℕ) : ℚ) / ((n' + 1 : ℕ) : ℚ))) ≤ u + B
      omega

theorem full_stroke_def_low (tD sp st : ℤ) (m : ℚ) (h : sp < 50) :
    generate_full_stroke tD sp st m =
      (let fd := pyInt ((tD : ℚ) / 2 /
         (if decide (sp < (100 : ℤ)) = true then UP_SPEED_MULTIPLIER else 1))
       let sd := pyInt ((tD : ℚ) / 2 /
         (if decide ((100 : ℤ) < 0) = true then UP_SPEED_MULTIPLIER else 1))
       (((List.range 8).map fun (i : ℕ) => Action.mk
           (st + pyInt ((fd : ℚ) * ((i : ℚ) / 7)))
           (pyInt ((sp : ℚ) + ((100 - sp : ℤ) : ℚ) * ((i : ℚ) / 7)))) ++
         ((List.range 7).map fun (j : ℕ) => Action.mk
           (st + fd + pyInt ((sd : ℚ) * (((j + 1 : ℕ) : ℚ) / 7)))
           (pyInt (((100 : ℤ) : ℚ) + ((0 - 100 : ℤ) : ℚ) * (((j + 1 : ℕ) : ℚ) / 7)))),
        st + fd + sd, 0)) := by
  unfold generate_full_stroke
  rw [if_pos h]

theorem full_stroke_def_high (tD sp st : ℤ) (m : ℚ) (h : ¬ (sp < 50)) :
    generate_full_stroke tD sp st m =
      (let fd := pyInt ((tD : ℚ) / 2 /
         (if decide (sp < (0 : ℤ)) = true then UP_SPEED_MULTIPLIER else 1))
       let sd := pyInt ((tD : ℚ) / 2 /
         (if decide ((0 : ℤ) < 100) = true then UP_SPEED_MULTIPLIER else 1))
       (((List.range 8).map fun (i : ℕ) => Action.mk
           (st + pyInt ((fd : ℚ) * ((i : ℚ) / 7)))
           (pyInt ((sp : ℚ) + ((0 - sp : ℤ) : ℚ) * ((i : ℚ) / 7)))) ++
         ((List.range 7).map fun (j : ℕ) => Action.mk
           (st + fd + pyInt ((sd : ℚ) * (((j + 1 : ℕ) : ℚ) / 7)))
           (pyInt (((0 : ℤ) : ℚ) + ((100 - 0 : ℤ) : ℚ) * (((j + 1 : ℕ) : ℚ) / 7)))),
        st + fd + sd, 100)) := by
  unfold generate_full_stroke
  rw [if_neg h]

theorem half_div_nonneg (tD : ℤ) (hT : 0 ≤ tD) (c : Prop) [Decidable c] :
    0 ≤ pyInt ((tD : ℚ) / 2 / (if c then UP_SPEED_MULTIPLIER else 1)) := by
  apply pyInt_nonneg
  have hc : (0 : ℚ) < (if c then UP_SPEED_MULTIPLIER else 1) := by
    split <;> norm_num [UP_SPEED_MULTIPLIER]
  have hT' : (0 : ℚ) ≤ (tD : ℚ) := by exact_mod_cast hT
  exact div_nonneg (div_nonneg hT' (by norm_num)) hc.le

theorem two_leg_spec (fd sd st : ℤ) (p1f p2f : ℕ → ℤ) (hfd : 0 ≤ fd) (hsd : 0 ≤ sd) :
    (((List.range (7 + 1)).map fun (i : ℕ) => Action.mk
        (st + pyInt ((fd : ℚ) * ((i : ℚ) / ((7 : ℕ) : ℚ)))) (p1f i)) ++
      ((List.range 7).map fun (j : ℕ) => Action.mk
        (st + fd + pyInt ((sd : ℚ) * (((j + 1 : ℕ) : ℚ) / ((7 : ℕ) : ℚ)))) (p2f j))) ≠ [] ∧
    ((((List.range (7 + 1)).map fun (i : ℕ) => Action.mk
        (st + pyInt ((fd : ℚ) * ((i : ℚ) / ((7 : ℕ) : ℚ)))) (p1f i)) ++
      ((List.range 7).map fun (j : ℕ) => Action.mk
        (st + fd + pyInt ((sd : ℚ) * (((j + 1 : ℕ) : ℚ) / ((7 : ℕ) : ℚ)))) (p2f j))).head?).map
      Action.«at» = some st ∧
    ((((List.range (7 + 1)).map fun (i : ℕ) => Action.mk
        (st + pyInt ((fd : ℚ) * ((i : ℚ) / ((7 : ℕ) : ℚ)))) (p1f i)) ++
      ((List.range 7).map fun (j : ℕ) => Action.mk
        (st + fd + pyInt ((sd : ℚ) * (((j + 1 : ℕ) : ℚ) / ((7 : ℕ) : ℚ)))) (p2f j))).getLast?).map
      Action.«at» = some (st + fd + sd) ∧
    (((List.range (7 + 1)).map fun (i : ℕ) => Action.mk
        (st + pyInt ((fd : ℚ) * ((i : ℚ) / ((7 : ℕ) : ℚ)))) (p1f i)) ++
      ((List.range 7).map fun (j : ℕ) => Action.mk
        (st + fd + pyInt ((sd : ℚ) * (((j + 1 : ℕ) : ℚ) / ((7 : ℕ) : ℚ)))) (p2f j))).Pairwise leAt ∧
    st ≤ st + fd + sd ∧
    ∀ a ∈ ((List.range (7 + 1)).map fun (i : ℕ) => Action.mk
        (st + pyInt ((fd : ℚ) * ((i : ℚ) / ((7 : ℕ) : ℚ)))) (p1f i)) ++
      ((List.range 7).map fun (j : ℕ) => Action.mk
        (st + fd + pyInt ((sd : ℚ) * (((j + 1 : ℕ) : ℚ) / ((7 : ℕ) : ℚ)))) (p2f j)),
      st ≤ a.«at» ∧ a.«at» ≤ st + fd + sd := by
  obtain ⟨h1ne, h1head, h1last, h1pw, h1bnd⟩ :=
    sampleRun_facts (n := 7) (B := fd) (t := st) (p := p1f) (by norm_num) hfd
  obtain ⟨h2ne, h2last, h2pw, h2bnd⟩ :=
    sampleRun2_facts (n := 7) (B := sd) (u := st + fd) (p := p2f) (by norm_num) hsd
  refine ⟨by simp, ?_, ?_, ?_, by omega, ?_⟩
  · rw [List.head?_append]
    cases hx : ((List.range (7 + 1)).map fun (i : ℕ) => Action.mk
        (st + pyInt ((fd : ℚ) * ((i : ℚ) / ((7 : ℕ) : ℚ)))) (p1f i)).head? with
    | none =>
      rw [hx] at h1head
      exact absurd h1head (by simp)
    | some a =>
      rw [hx] at h1head
      rw [Option.or_some]
      exact h1head
  · rw [List.getLast?_append]
    cases hx : ((List.range 7).map fun (j : ℕ) => Action.mk
        (st + fd + pyInt ((sd : ℚ) * (((j + 1 : ℕ) : ℚ) / ((7 : ℕ) : ℚ)))) (p2f j)).getLast? with
    | none =>
      rw [hx] at h2last
      exact absurd h2last (by simp)
    | some b =>
      rw [hx] at h2last
      rw [Option.or_some]
      exact h2last
  · rw [List.pairwise_append]
    refine ⟨h1pw, h2pw, ?_⟩
    intro a ha b hb
    have hA := h1bnd a ha
    have hB := h2bnd b hb
    show a.«at» ≤ b.«at»
    omega
  · intro a ha
    rcases List.mem_append.mp ha with ha' | ha'
    · have := h1bnd a ha'
      omega
    · have := h2bnd a ha'
      omega

theorem full_stroke_spec (tD sp st : ℤ) (m : ℚ) (hT : 0 ≤ tD) :
    (generate_full_stroke tD sp st m).1 ≠ [] ∧
    ((generate_full_stroke tD sp st m).1.head?).map Action.«at» = some st ∧
    ((generate_full_stroke tD sp st m).1.getLast?).map Action.«at» =
      some (generate_full_stroke tD sp st m).2.1 ∧
    (generate_full_stroke tD sp st m).1.Pairwise leAt ∧
    st ≤ (generate_full_stroke tD sp st m).2.1 ∧
    ∀ a ∈ (generate_full_stroke tD sp st m).1,
      st ≤ a.«at» ∧ a.«at» ≤ (generate_full_stroke tD sp st m).2.1 := by
  rcases lt_or_le sp 50 with h | h
  · rw [full_stroke_def_low tD sp st m h]
    exact two_leg_spec _ _ st _ _ (half_div_nonneg tD hT _) (half_div_nonneg tD hT _)
  · rw [full_stroke_def_high tD sp st m (not_lt.mpr h)]
    exact two_leg_spec _ _ st _ _ (half_div_nonneg tD hT _) (half_div_nonneg tD hT _)

theorem pyInt_lerp_range {a b : ℤ} {q : ℚ} (hq0 : 0 ≤ q) (hq1 : q ≤ 1)
    (ha0 : 0 ≤ a) (ha1 : a ≤ 100) (hb0 : 0 ≤ b) (hb1 : b ≤ 100) :
    0 ≤ pyInt ((a : ℚ) + ((b - a : ℤ) : ℚ) * q) ∧
      pyInt ((a : ℚ) + ((b - a : ℤ) : ℚ) * q) ≤ 100 := by
  have ha0' : (0 : ℚ) ≤ (a : ℚ) := by exact_mod_cast ha0
  have ha1' : (a : ℚ) ≤ 100 := by exact_mod_cast ha1
  have hb0' : (0 : ℚ) ≤ (b : ℚ) := by exact_mod_cast hb0
  have hb1' : (b : ℚ) ≤ 100 := by exact_mod_cast hb1
  have hcast : ((b - a : ℤ) : ℚ) = (b : ℚ) - (a : ℚ) := by push_cast; ring
  have h0 : (0 : ℚ) ≤ (a : ℚ) + ((b - a : ℤ) : ℚ) * q := by
    rw [hcast]
    nlinarith
  have h100 : (a : ℚ) + ((b - a : ℤ) : ℚ) * q ≤ ((100 : ℤ) : ℚ) := by
    rw [hcast]
    push_cast
    nlinarith
  refine ⟨pyInt_nonneg h0, ?_⟩
  have := pyInt_mono h100
  rwa [pyInt_intCast] at this

theorem full_stroke_pos_range (tD sp st : ℤ) (m : ℚ) (hsp0 : 0 ≤ sp) (hsp1 : sp ≤ 100) :
    ∀ a ∈ (generate_full_stroke tD sp st m).1, 0 ≤ a.pos ∧ a.pos ≤ 100 := by
  rcases lt_or_le sp 50 with h | h
  · rw [full_stroke_def_low tD sp st m h]
    intro a ha
    rcases List.mem_append.mp ha with ha' | ha' <;> rw [List.mem_map] at ha' <;>
      obtain ⟨i, hi, rfl⟩ := ha'
    · exact pyInt_lerp_range (progress_nonneg i 7 (by norm_num))
        (by
          have : (i : ℚ) / ((7 : ℕ) : ℚ) ≤ 1 :=
            progress_le_one (show i ≤ 7 by rw [List.mem_range] at hi; omega)
          exact_mod_cast this)
        hsp0 hsp1 (by norm_num) (by norm_num)
    · exact pyInt_lerp_range (progress_nonneg (i + 1) 7 (by norm_num))
        (by
          have : ((i + 1 : ℕ) : ℚ) / ((7 : ℕ) : ℚ) ≤ 1 :=
            progress_le_one (show i + 1 ≤ 7 by rw [List.mem_range] at hi; omega)
          exact_mod_cast this)
        (by norm_num) (by norm_num) (by norm_num) (by norm_num)
  · rw [full_stroke_def_high tD sp st m (not_lt.mpr h)]
    intro a ha
    rcases List.mem_append.mp ha with ha' | ha' <;> rw [List.mem_map] at ha' <;>
      obtain ⟨i, hi, rfl⟩ := ha'
    · exact pyInt_lerp_range (progress_nonneg i 7 (by norm_num))
        (by
          have : (i : ℚ) / ((7 : ℕ) : ℚ) ≤ 1 :=
            progress_le_one (show i ≤ 7 by rw [List.mem_range] at hi; omega)
          exact_mod_cast this)
        hsp0 hsp1 (by norm_num) (by norm_num)
    · exact pyInt_lerp_range (progress_nonneg (i + 1) 7 (by norm_num))
        (by
          have : ((i + 1 : ℕ) : ℚ) / ((7 : ℕ) : ℚ) ≤ 1 :=
            progress_le_one (show i + 1 ≤ 7 by rw [List.mem_range] at hi; omega)
          exact_mod_cast this)
        (by norm_num) (by norm_num) (by norm_num) (by norm_num)

theorem clamp_range (z : ℤ) : 0 ≤ clampPos z ∧ clampPos z ≤ 100 := by
  unfold clampPos
  omega

theorem wave_pos_range (n : ℕ) (amp : ℕ → ℤ) (sp ep st : ℤ) (m : ℚ) :
    ∀ a ∈ (generate_wave_motion n amp sp ep st m).1, 0 ≤ a.pos ∧ a.pos ≤ 100 := by
  rw [wave_def]
  intro a ha
  rw [List.mem_map] at ha
  obtain ⟨i, _, rfl⟩ := ha
  exact clamp_range _

theorem gradual_pos_range (n : ℕ) (sp ep st : ℤ) (m : ℚ) :
    ∀ a ∈ (generate_gradual_motion n sp ep st m).1, 0 ≤ a.pos ∧ a.pos ≤ 100 := by
  rw [gradual_def]
  intro a ha
  rw [List.mem_map] at ha
  obtain ⟨i, _, rfl⟩ := ha
  exact clamp_range _

theorem wave_spec (n : ℕ) (amp : ℕ → ℤ) (sp ep st : ℤ) (m : ℚ) (hn : 1 ≤ n) (hm : 0 < m) :
    (generate_wave_motion n amp sp ep st m).1 ≠ [] ∧
    ((generate_wave_motion n amp sp ep st m).1.head?).map Action.«at» = some st ∧
    ((generate_wave_motion n amp sp ep st m).1.getLast?).map Action.«at» =
      some (generate_wave_motion n amp sp ep st m).2 ∧
    (generate_wave_motion n amp sp ep st m).1.Pairwise leAt ∧
    st ≤ (generate_wave_motion n amp sp ep st m).2 ∧
    ∀ a ∈ (generate_wave_motion n amp sp ep st m).1,
      st ≤ a.«at» ∧ a.«at» ≤ (generate_wave_motion n amp sp ep st m).2 := by
  have hB : 0 ≤ calculate_duration ((ep - sp).natAbs : ℚ) (decide (sp < ep)) m :=
    calculate_duration_nonneg _ (by positivity) hm
  obtain ⟨h1, h2, h3, h4, h5⟩ := sampleRun_facts (n := n)
    (B := calculate_duration ((ep - sp).natAbs : ℚ) (decide (sp < ep)) m) (t := st)
    (p := fun i => clampPos (pyInt ((sp : ℚ) + ((ep - sp : ℤ) : ℚ) * ((i : ℚ) / (n : ℚ)) +
      (if i ≠ 0 ∧ i ≠ n then (amp i : ℚ) * pySin2pi ((i : ℚ) / (n : ℚ)) else 0)))) hn hB
  rw [wave_def]
  exact ⟨h1, h2, h3, h4, by omega, h5⟩

theorem gradual_spec (n : ℕ) (sp ep st : ℤ) (m : ℚ) (hn : 1 ≤ n) (hm : 0 < m) :
    (generate_gradual_motion n sp ep st m).1 ≠ [] ∧
    ((generate_gradual_motion n sp ep st m).1.head?).map Action.«at» = some st ∧
    ((generate_gradual_motion n sp ep st m).1.getLast?).map Action.«at» =
      some (generate_gradual_motion n sp ep st m).2 ∧
    (generate_gradual_motion n sp ep st m).1.Pairwise leAt ∧
    st ≤ (generate_gradual_motion n sp ep st m).2 ∧
    ∀ a ∈ (generate_gradual_motion n sp ep st m).1,
      st ≤ a.«at» ∧ a.«at» ≤ (generate_gradual_motion n sp ep st m).2 := by
  have hB : 0 ≤ calculate_duration ((ep - sp).natAbs : ℚ) (decide (sp < ep)) m :=
    calculate_duration_nonneg _ (by positivity) hm
  obtain ⟨h1, h2, h3, h4, h5⟩ := sampleRun_facts (n := n)
    (B := calculate_duration ((ep - sp).natAbs : ℚ) (decide (sp < ep)) m) (t := st)
    (p := fun i => clampPos (pyInt ((sp : ℚ) + ((ep - sp : ℤ) : ℚ) *
      ((pyCosPi (1 - (i : ℚ) / (n : ℚ)) + 1) / 2)))) hn hB
  rw [gradual_def]
  exact ⟨h1, h2, h3, h4, by omega, h5⟩

theorem natAbs_cast_q {x : ℤ} (h : 0 ≤ x) : ((x.natAbs : ℕ) : ℚ) = (x : ℚ) := by
  have h2 : (x.natAbs : ℤ) = x := Int.natAbs_of_nonneg h
  calc ((x.natAbs : ℕ) : ℚ) = ((x.natAbs : ℤ) : ℚ) := (Int.cast_natCast _).symm
    _ = (x : ℚ) := by rw [h2]

theorem plateau_spec (sp ep st : ℤ) (m : ℚ) (hm : 0 < m) :
    (generate_plateau_motion sp ep st m).1 ≠ [] ∧
    ((generate_plateau_motion sp ep st m).1.head?).map Action.«at» = some st ∧
    ((generate_plateau_motion sp ep st m).1.getLast?).map Action.«at» =
      some (generate_plateau_motion sp ep st m).2 ∧
    (generate_plateau_motion sp ep st m).1.Pairwise leAt ∧
    st ≤ (generate_plateau_motion sp ep st m).2 ∧
    ∀ a ∈ (generate_plateau_motion sp ep st m).1,
      st ≤ a.«at» ∧ a.«at» ≤ (generate_plateau_motion sp ep st m).2 := by
  have hB : 0 ≤ calculate_duration ((ep - sp).natAbs : ℚ) (decide (sp < ep)) m :=
    calculate_duration_nonneg _ (by positivity) hm
  have hd : 0 ≤ Int.fdiv (calculate_duration ((ep - sp).natAbs : ℚ) (decide (sp < ep)) m) 6 :=
    Int.fdiv_nonneg hB (by norm_num)
  rw [plateau_def]
  refine ⟨by simp, by simp, ?_, ?_, ?_, ?_⟩
  · simp [List.getLast?]
  · simp only [List.pairwise_cons, List.forall_mem_cons, List.not_mem_nil,
      false_implies, implies_true, and_true, List.forall_mem_nil, List.Pairwise.nil]
    unfold leAt
    dsimp only
    omega
  · show st ≤ st + _ + _ + _ + _ + _ + _
    omega
  · intro a ha
    simp only [List.mem_cons, List.not_mem_nil, or_false] at ha
    rcases ha with rfl | rfl | rfl | rfl | rfl | rfl | rfl <;>
      exact ⟨by dsimp only; omega, by dsimp only; omega⟩

theorem plateau_pos_range (sp ep st : ℤ) (m : ℚ)
    (hsp0 : 0 ≤ sp) (hsp1 : sp ≤ 100) (hep0 : 0 ≤ ep) (hep1 : ep ≤ 100) :
    ∀ a ∈ (generate_plateau_motion sp ep st m).1, 0 ≤ a.pos ∧ a.pos ≤ 100 := by
  rw [plateau_def]
  have key : ∀ k : ℚ, 0 ≤ k → k ≤ 3 →
      0 ≤ pyInt ((sp : ℚ) + ((ep - sp).natAbs : ℚ) / 3 * k *
        (if decide (sp < ep) = true then 1 else -1)) ∧
      pyInt ((sp : ℚ) + ((ep - sp).natAbs : ℚ) / 3 * k *
        (if decide (sp < ep) = true then 1 else -1)) ≤ 100 := by
    intro k hk0 hk3
    rcases lt_or_le sp ep with h | h
    · have hdir : decide (sp < ep) = true := decide_eq_true h
      rw [hdir, if_pos rfl]
      have hdist : ((ep - sp).natAbs : ℚ) = ((ep - sp : ℤ) : ℚ) := natAbs_cast_q (by omega)
      have heq : (sp : ℚ) + ((ep - sp).natAbs : ℚ) / 3 * k * 1 =
          (sp : ℚ) + ((ep - sp : ℤ) : ℚ) * (k / 3) := by
        rw [hdist]
        ring
      rw [heq]
      exact pyInt_lerp_range (by positivity) (by linarith) hsp0 hsp1 hep0 hep1
    · have hdir : decide (sp < ep) = false := decide_eq_false (not_lt.mpr h)
      rw [hdir, if_neg (by simp)]
      have hdist : ((ep - sp).natAbs : ℚ) = ((sp - ep : ℤ) : ℚ) := by
        rw [show (ep - sp).natAbs = (sp - ep).natAbs by omega]
        exact natAbs_cast_q (by omega)
      have heq : (sp : ℚ) + ((ep - sp).natAbs : ℚ) / 3 * k * (-1) =
          (sp : ℚ) + ((ep - sp : ℤ) : ℚ) * (k / 3) := by
        rw [hdist]
        push_cast
        ring
      rw [heq]
      exact pyInt_lerp_range (by positivity) (by linarith) hsp0 hsp1 hep0 hep1
  intro a ha
  simp only [List.mem_cons, List.not_mem_nil, or_false] at ha
  rcases ha with rfl | rfl | rfl | rfl | rfl | rfl | rfl
  · constructor <;> (dsimp only; omega)
  · have h := key (0 + 1) (by norm_num) (by norm_num)
    exact ⟨by dsimp only; exact h.1, by dsimp only; exact h.2⟩
  · have h := key (0 + 1) (by norm_num) (by norm_num)
    exact ⟨by dsimp only; exact h.1, by dsimp only; exact h.2⟩
  · have h := key (1 + 1) (by norm_num) (by norm_num)
    exact ⟨by dsimp only; exact h.1, by dsimp only; exact h.2⟩
  · have h := key (1 + 1) (by norm_num) (by norm_num)
    exact ⟨by dsimp only; exact h.1, by dsimp only; exact h.2⟩
  · have h := key (2 + 1) (by norm_num) (by norm_num)
    exact ⟨by dsimp only; exact h.1, by dsimp only; exact h.2⟩
  · constructor <;> (dsimp only; omega)

/-- C7: the sort-and-deduplicate finalization step is idempotent — applying it
to a list it has already produced returns that list unchanged. -/
theorem c7_finalize_idempotent (l : List Action) :
    finalizeActions (finalizeActions l) = finalizeActions l := by
  unfold finalizeActions
  have hs := sortByAt_pairwise l
  have hd : (dedupeLoop (sortByAt l) (-1)).Pairwise ltAt :=
    dedupe_pairwise (sortByAt l) (-1) hs
  rw [sortByAt_of_pairwise (hd.imp (fun h => le_of_lt h))]
  exact dedupe_eq_self _ (-1) hd (fun a ha => dedupe_head_ne (sortByAt l) (-1) a ha)

/-- C1 evaluation: at start position 0, start time 0, multiplier 1 and
total-duration draw 10000 (a valid `randint(10000, 12000)` draw), the
full-range cycle's elapsed time is 8333 ms, outside the band
[10000, 12000] the code's own comments promise. -/
theorem c1_full_stroke_elapsed_short :
    ((10000 : ℤ) ≤ 10000 ∧ (10000 : ℤ) ≤ 12000) ∧
    (generate_full_stroke 10000 0 0 1).2.1 - 0 = 8333 ∧
    ¬ ((10000 : ℤ) ≤ (generate_full_stroke 10000 0 0 1).2.1 - 0 ∧
       (generate_full_stroke 10000 0 0 1).2.1 - 0 ≤ 12000) := by
  refine ⟨by decide, by decide, by decide⟩

/-- C2 counterexample: at distance 1 and speed multiplier 200 the integer
truncation collapses both directions' durations to 0, so the strict
inequality `duration(d, true, m) < duration(d, false, m)` fails. -/
theorem c2_counterexample :
    ¬ (calculate_duration 1 true 200 < calculate_duration 1 false 200) := by
  decide

/-- C2 (amended): for every distance `d > 0` and multiplier `m > 0` such that
the untruncated base duration `d * 150 / m` is at least 3 ms (in particular
for every multiplier the scheduler can produce, which is at most 1.3), an
increasing move takes strictly less time than a decreasing one. -/
theorem c2_duration_up_lt_down (d m : ℚ) (hd : 0 < d) (hm : 0 < m)
    (h3 : 3 ≤ d * 150 / m) :
    calculate_duration d true m < calculate_duration d false m := by
  rw [calculate_duration_true, calculate_duration_false]
  have hx : (0 : ℚ) ≤ d * 150 / m := le_trans (by norm_num) h3
  have hx2 : (0 : ℚ) ≤ d * 150 / m / (3 / 2) := by positivity
  rw [pyInt_of_nonneg hx, pyInt_of_nonneg hx2]
  have step : d * 150 / m / (3 / 2) ≤ d * 150 / m - 1 := by
    have : d * 150 / m / (3 / 2) = (d * 150 / m) * (2 / 3) := by ring
    rw [this]
    nlinarith [h3]
  calc ⌊d * 150 / m / (3 / 2)⌋ ≤ ⌊d * 150 / m - 1⌋ := Int.floor_le_floor step
    _ = ⌊d * 150 / m⌋ - 1 := by
        have h4 := Int.floor_sub_int (d * 150 / m) 1
        simp only [Int.cast_one] at h4
        exact h4
    _ < ⌊d * 150 / m⌋ := by omega

/-- C2 witness: the amended theorem applies at `d = 1`, `m = 1`. -/
theorem c2_witness :
    (0 : ℚ) < 1 ∧ (0 : ℚ) < 1 ∧ (3 : ℚ) ≤ 1 * 150 / 1 ∧
    calculate_duration 1 true 1 < calculate_duration 1 false 1 :=
  ⟨by norm_num, by norm_num, by norm_num,
    c2_duration_up_lt_down 1 1 (by norm_num) (by norm_num) (by norm_num)⟩

/-- C5 counterexample: the plateau generator does not clamp its sample
positions — called with end position 150 it emits out-of-range positions. -/
theorem c5_counterexample :
    ((generate_plateau_motion 50 150 0 1).1.all posInRange) = false := by
  decide

/-- C8 counterexample: with the valid per-sample amplitude draws
`[10, 5, 10, 10, 10, 10]` (sample 1 draws amplitude 5, the rest draw 10) on a
zero-distance wave call, no single amplitude value in the drawn range [5, 10]
reproduces the emitted sample run, refuting the single-amplitude-per-call
reading. -/
theorem c8_counterexample : (ampRange.all c8differs) = true := by
  decide

/-- C10: with start and end positions 95 (strictly inside (0, 100)), amplitude
draw 10 and 5 inner points (all valid draws), the wave generator's sinusoidal
overshoot is clamped to the boundary, emitting samples at exactly 100 — so
extreme-position samples are not produced solely by full-range cycles. -/
theorem c10_wave_clamps_to_extreme :
    ((0 : ℤ) < 95 ∧ (95 : ℤ) < 100) ∧
    ((5 : ℤ) ≤ 10 ∧ (10 : ℤ) ≤ 10) ∧
    ((generate_wave_motion 5 constAmp10 95 95 0 1).1.any atHundred) = true := by
  refine ⟨by decide, by decide, by decide⟩

/-- C5 (amended): the wave and gradual generators clamp every emitted position
into [0, 100] for every input; the plateau and full-range-cycle generators do
not clamp but preserve the range — whenever their input positions lie in
[0, 100], every position they emit lies in [0, 100]. -/
theorem c5_positions_in_range :
    (∀ (n : ℕ) (amp : ℕ → ℤ) (sp ep st : ℤ) (m : ℚ),
      ((generate_wave_motion n amp sp ep st m).1.all posInRange) = true) ∧
    (∀ (n : ℕ) (sp ep st : ℤ) (m : ℚ),
      ((generate_gradual_motion n sp ep st m).1.all posInRange) = true) ∧
    (∀ (sp ep st : ℤ) (m : ℚ), 0 ≤ sp → sp ≤ 100 → 0 ≤ ep → ep ≤ 100 →
      ((generate_plateau_motion sp ep st m).1.all posInRange) = true) ∧
    (∀ (tD sp st : ℤ) (m : ℚ), 0 ≤ sp → sp ≤ 100 →
      ((generate_full_stroke tD sp st m).1.all posInRange) = true) := by
  have conv : ∀ (l : List Action),
      (∀ a ∈ l, 0 ≤ a.pos ∧ a.pos ≤ 100) → (l.all posInRange = true) := by
    intro l h
    rw [List.all_eq_true]
    intro a ha
    exact decide_eq_true (h a ha)
  exact ⟨fun n amp sp ep st m => conv _ (wave_pos_range n amp sp ep st m),
    fun n sp ep st m => conv _ (gradual_pos_range n sp ep st m),
    fun sp ep st m h1 h2 h3 h4 => conv _ (plateau_pos_range sp ep st m h1 h2 h3 h4),
    fun tD sp st m h1 h2 => conv _ (full_stroke_pos_range tD sp st m h1 h2)⟩

/-- C5 witness: the amended range statement applies at concrete inputs for all
four generators. -/
theorem c5_witness :
    ((generate_wave_motion 5 constAmp10 95 95 0 1).1.all posInRange) = true ∧
    ((generate_gradual_motion 9 20 80 0 1).1.all posInRange) = true ∧
    ((0 : ℤ) ≤ 30 ∧ (30 : ℤ) ≤ 100 ∧ (0 : ℤ) ≤ 70 ∧ (70 : ℤ) ≤ 100) ∧
    ((generate_plateau_motion 30 70 0 1).1.all posInRange) = true ∧
    ((0 : ℤ) ≤ 40 ∧ (40 : ℤ) ≤ 100) ∧
    ((generate_full_stroke 10000 40 0 1).1.all posInRange) = true :=
  ⟨c5_positions_in_range.1 5 constAmp10 95 95 0 1,
   c5_positions_in_range.2.1 9 20 80 0 1,
   ⟨by decide, by decide, by decide, by decide⟩,
   c5_positions_in_range.2.2.1 30 70 0 1 (by decide) (by decide) (by decide) (by decide),
   ⟨by decide, by decide⟩,
   c5_positions_in_range.2.2.2 10000 40 0 1 (by decide) (by decide)⟩

/-- C6: every segment generator returns a non-empty sample run whose first
sample's `at` is the given start time, whose last sample's `at` is the
returned end time, and whose timestamps are non-decreasing — for every
point-count draw ≥ 1 (the valid draws are 5-7 resp. 8-10) and every positive
speed multiplier (the multiplier contract of §4.1, which the scheduler
maintains), and for the full-range cycle every non-negative total-duration
draw (the valid draws are 10000-12000). -/
theorem c6_segment_contract :
    (∀ (n : ℕ) (amp : ℕ → ℤ) (sp ep st : ℤ) (m : ℚ), 1 ≤ n → 0 < m →
      (generate_wave_motion n amp sp ep st m).1 ≠ [] ∧
      ((generate_wave_motion n amp sp ep st m).1.head?).map Action.«at» = some st ∧
      ((generate_wave_motion n amp sp ep st m).1.getLast?).map Action.«at» =
        some (generate_wave_motion n amp sp ep st m).2 ∧
      (generate_wave_motion n amp sp ep st m).1.Pairwise leAt) ∧
    (∀ (n : ℕ) (sp ep st : ℤ) (m : ℚ), 1 ≤ n → 0 < m →
      (generate_gradual_motion n sp ep st m).1 ≠ [] ∧
      ((generate_gradual_motion n sp ep st m).1.head?).map Action.«at» = some st ∧
      ((generate_gradual_motion n sp ep st m).1.getLast?).map Action.«at» =
        some (generate_gradual_motion n sp ep st m).2 ∧
      (generate_gradual_motion n sp ep st m).1.Pairwise leAt) ∧
    (∀ (sp ep st : ℤ) (m : ℚ), 0 < m →
      (generate_plateau_motion sp ep st m).1 ≠ [] ∧
      ((generate_plateau_motion sp ep st m).1.head?).map Action.«at» = some st ∧
      ((generate_plateau_motion sp ep st m).1.getLast?).map Action.«at» =
        some (generate_plateau_motion sp ep st m).2 ∧
      (generate_plateau_motion sp ep st m).1.Pairwise leAt) ∧
    (∀ (tD sp st : ℤ) (m : ℚ), 0 ≤ tD →
      (generate_full_stroke tD sp st m).1 ≠ [] ∧
      ((generate_full_stroke tD sp st m).1.head?).map Action.«at» = some st ∧
      ((generate_full_stroke tD sp st m).1.getLast?).map Action.«at» =
        some (generate_full_stroke tD sp st m).2.1 ∧
      (generate_full_stroke tD sp st m).1.Pairwise leAt) := by
  refine ⟨?_, ?_, ?_, ?_⟩
  · intro n amp sp ep st m hn hm
    obtain ⟨h1, h2, h3, h4, _, _⟩ := wave_spec n amp sp ep st m hn hm
    exact ⟨h1, h2, h3, h4⟩
  · intro n sp ep st m hn hm
    obtain ⟨h1, h2, h3, h4, _, _⟩ := gradual_spec n sp ep st m hn hm
    exact ⟨h1, h2, h3, h4⟩
  · intro sp ep st m hm
    obtain ⟨h1, h2, h3, h4, _, _⟩ := plateau_spec sp ep st m hm
    exact ⟨h1, h2, h3, h4⟩
  · intro tD sp st m hT
    obtain ⟨h1, h2, h3, h4, _, _⟩ := full_stroke_spec tD sp st m hT
    exact ⟨h1, h2, h3, h4⟩

/-- C6 witness: the contract applies at concrete valid inputs for all four
generators. -/
theorem c6_witness :
    ((1 : ℕ) ≤ 5 ∧ (0 : ℚ) < 1) ∧
    ((generate_wave_motion 5 constAmp10 50 85 0 1).1 ≠ [] ∧
      ((generate_wave_motion 5 constAmp10 50 85 0 1).1.head?).map Action.«at» = some 0 ∧
      ((generate_wave_motion 5 constAmp10 50 85 0 1).1.getLast?).map Action.«at» =
        some (generate_wave_motion 5 constAmp10 50 85 0 1).2 ∧
      (generate_wave_motion 5 constAmp10 50 85 0 1).1.Pairwise leAt) ∧
    ((generate_gradual_motion 9 50 85 0 1).1 ≠ [] ∧
      ((generate_gradual_motion 9 50 85 0 1).1.head?).map Action.«at» = some 0 ∧
      ((generate_gradual_motion 9 50 85 0 1).1.getLast?).map Action.«at» =
        some (generate_gradual_motion 9 50 85 0 1).2 ∧
      (generate_gradual_motion 9 50 85 0 1).1.Pairwise leAt) ∧
    ((generate_plateau_motion 50 85 0 1).1 ≠ [] ∧
      ((generate_plateau_motion 50 85 0 1).1.head?).map Action.«at» = some 0 ∧
      ((generate_plateau_motion 50 85 0 1).1.getLast?).map Action.«at» =
        some (generate_plateau_motion 50 85 0 1).2 ∧
      (generate_plateau_motion 50 85 0 1).1.Pairwise leAt) ∧
    ((generate_full_stroke 10000 20 0 1).1 ≠ [] ∧
      ((generate_full_stroke 10000 20 0 1).1.head?).map Action.«at» = some 0 ∧
      ((generate_full_stroke 10000 20 0 1).1.getLast?).map Action.«at» =
        some (generate_full_stroke 10000 20 0 1).2.1 ∧
      (generate_full_stroke 10000 20 0 1).1.Pairwise leAt) :=
  ⟨⟨by decide, by decide⟩,
   c6_segment_contract.1 5 constAmp10 50 85 0 1 (by decide) (by decide),
   c6_segment_contract.2.1 9 50 85 0 1 (by decide) (by decide),
   c6_segment_contract.2.2.1 50 85 0 1 (by decide),
   c6_segment_contract.2.2.2 10000 20 0 1 (by decide)⟩

/-- C8 (amended): the wave generator draws a fresh amplitude for every sample
of the call (the `randint(5, 10)` draw happens inside the sample loop), and
forces the sinusoidal offset to zero at the first and last sample, so the
endpoint positions are the (clamped) start and end positions exactly. -/
theorem c8_per_sample_amplitude (n : ℕ) (amp : ℕ → ℤ) (sp ep st : ℤ) (m : ℚ)
    (hn : 1 ≤ n) :
    (generate_wave_motion n amp sp ep st m).1 = waveSamplesPerDraw n amp sp ep st m ∧
    ((generate_wave_motion n amp sp ep st m).1.head?).map Action.pos =
      some (clampPos sp) ∧
    ((generate_wave_motion n amp sp ep st m).1.getLast?).map Action.pos =
      some (clampPos ep) := by
  refine ⟨rfl, ?_, ?_⟩
  · rw [wave_def, List.head?_map, List.head?_range]
    rw [if_neg (Nat.succ_ne_zero n)]
    have h : (sp : ℚ) + ((ep - sp : ℤ) : ℚ) * (((0 : ℕ) : ℚ) / (n : ℚ)) +
        (if (0 : ℕ) ≠ 0 ∧ (0 : ℕ) ≠ n then ((amp 0 : ℤ) : ℚ) * pySin2pi (((0 : ℕ) : ℚ) / (n : ℚ))
         else 0) = ((sp : ℤ) : ℚ) := by
      norm_num
    show some (clampPos (pyInt ((sp : ℚ) + ((ep - sp : ℤ) : ℚ) * (((0 : ℕ) : ℚ) / (n : ℚ)) +
      (if (0 : ℕ) ≠ 0 ∧ (0 : ℕ) ≠ n then ((amp 0 : ℤ) : ℚ) * pySin2pi (((0 : ℕ) : ℚ) / (n : ℚ))
       else 0)))) = some (clampPos sp)
    rw [h, pyInt_intCast]
  · rw [wave_def, List.getLast?_map]
    have hr : List.range (n + 1) = List.range n ++ [n] := List.range_succ n
    rw [hr, List.getLast?_concat]
    have h : (sp : ℚ) + ((ep - sp : ℤ) : ℚ) * ((n : ℚ) / (n : ℚ)) +
        (if n ≠ 0 ∧ n ≠ n then ((amp n : ℤ) : ℚ) * pySin2pi ((n : ℚ) / (n : ℚ))
         else 0) = ((ep : ℤ) : ℚ) := by
      rw [if_neg (by simp), progress_self hn]
      push_cast
      ring
    show some (clampPos (pyInt ((sp : ℚ) + ((ep - sp : ℤ) : ℚ) * ((n : ℚ) / (n : ℚ)) +
      (if n ≠ 0 ∧ n ≠ n then ((amp n : ℤ) : ℚ) * pySin2pi ((n : ℚ) / (n : ℚ))
       else 0)))) = some (clampPos ep)
    rw [h, pyInt_intCast]

/-- C8 witness: the per-sample-amplitude statement applies at the concrete
draws used in the counterexample. -/
theorem c8_witness :
    ((1 : ℕ) ≤ 5) ∧
    (generate_wave_motion 5 c8AmpDraw 50 50 0 1).1 =
      waveSamplesPerDraw 5 c8AmpDraw 50 50 0 1 ∧
    ((generate_wave_motion 5 c8AmpDraw 50 50 0 1).1.head?).map Action.pos =
      some (clampPos 50) ∧
    ((generate_wave_motion 5 c8AmpDraw 50 50 0 1).1.getLast?).map Action.pos =
      some (clampPos 50) :=
  ⟨by decide,
   (c8_per_sample_amplitude 5 c8AmpDraw 50 50 0 1 (by decide)).1,
   (c8_per_sample_amplitude 5 c8AmpDraw 50 50 0 1 (by decide)).2.1,
   (c8_per_sample_amplitude 5 c8AmpDraw 50 50 0 1 (by decide)).2.2⟩

theorem inv_append {acts w : List Action} {ct e : ℤ}
    (hb : ∀ a ∈ acts, 0 ≤ a.«at» ∧ a.«at» ≤ ct)
    (hpw : acts.Pairwise leAt)
    (hnew : ∀ a ∈ w, ct ≤ a.«at» ∧ a.«at» ≤ e)
    (hnpw : w.Pairwise leAt)
    (hct : 0 ≤ ct) (hce : ct ≤ e) :
    (∀ a ∈ acts ++ w, 0 ≤ a.«at» ∧ a.«at» ≤ e) ∧
    (acts ++ w).Pairwise leAt ∧ 0 ≤ e := by
  refine ⟨?_, ?_, by omega⟩
  · intro a ha
    rcases List.mem_append.mp ha with h | h
    · have := hb a h
      omega
    · have := hnew a h
      omega
  · rw [List.pairwise_append]
    refine ⟨hpw, hnpw, ?_⟩
    intro a ha b hb'
    have h1 := hb a ha
    have h2 := hnew b hb'
    show a.«at» ≤ b.«at»
    omega

theorem speedStep_inv (o : Oracle) (hv : o.Valid) (s : GenState) (h : Inv s) :
    Inv (speedStep o s) := by
  obtain ⟨hb, hm, hct, hmu, hpw⟩ := h
  unfold speedStep
  split
  · split
    · exact ⟨hb, hm, hct, by norm_num, hpw⟩
    · refine ⟨hb, hm, hct, ?_, hpw⟩
      have := (hv.2.2.1 s.kUniform (1 / 10) (3 / 10) (by norm_num)).1
      show (0 : ℚ) < 1 + o.uniform s.kUniform (1 / 10) (3 / 10)
      linarith
  · exact ⟨hb, hm, hct, hmu, hpw⟩

theorem pauseStep_inv (o : Oracle) (s : GenState) (h : Inv s) :
    Inv (pauseStep o s) := by
  obtain ⟨hb, hm, hct, hmu, hpw⟩ := h
  unfold pauseStep
  split
  · dsimp only
    split
    case isTrue hlt =>
      obtain ⟨hbnd, hpw2, het⟩ := inv_append (e := add_pause (o.randint s.kRandint 0 3000)
        s.current_time) (w := [Action.mk (add_pause (o.randint s.kRandint 0 3000)
        s.current_time) s.current_pos]) hb hpw
        (by
          intro a ha
          rcases List.mem_singleton.mp ha with rfl
          dsimp only
          omega)
        (List.pairwise_singleton _ _) hct (le_of_lt hlt)
      exact ⟨hbnd, List.mem_append_left _ hm, by dsimp only; omega, hmu, hpw2⟩
    case isFalse =>
      exact ⟨hb, hm, hct, hmu, hpw⟩
  · exact ⟨hb, hm, hct, hmu, hpw⟩

theorem chooseTarget_inv (o : Oracle) (s : GenState) (h : Inv s) :
    Inv (chooseTarget o s).2 := by
  obtain ⟨hb, hm, hct, hmu, hpw⟩ := h
  unfold chooseTarget
  dsimp only
  split
  · exact ⟨hb, hm, hct, hmu, hpw⟩
  · split
    · exact ⟨hb, hm, hct, hmu, hpw⟩
    · split
      · exact ⟨hb, hm, hct, hmu, hpw⟩
      · exact ⟨hb, hm, hct, hmu, hpw⟩

theorem motionStep_inv (o : Oracle) (hv : o.Valid) (target_pos : ℤ) (mt : MotionKind)
    (s : GenState) (h : Inv s) : Inv (motionStep o target_pos mt s) := by
  obtain ⟨hb, hm, hct, hmu, hpw⟩ := h
  cases mt with
  | wave =>
    have hnp : 1 ≤ (o.randint s.kRandint 5 7).toNat := by
      have := hv.1 s.kRandint 5 7 (by norm_num)
      omega
    obtain ⟨_, _, _, gpw, gend, gbnd⟩ := wave_spec (o.randint s.kRandint 5 7).toNat
      (fun i => o.randint (s.kRandint + 1 + i) 5 10) s.current_pos target_pos
      s.current_time s.speed_multiplier hnp hmu
    obtain ⟨hbnd, hpw2, het⟩ := inv_append hb hpw gbnd gpw hct gend
    exact ⟨hbnd, List.mem_append_left _ hm, het, hmu, hpw2⟩
  | gradual =>
    have hnp : 1 ≤ (o.randint s.kRandint 8 10).toNat := by
      have := hv.1 s.kRandint 8 10 (by norm_num)
      omega
    obtain ⟨_, _, _, gpw, gend, gbnd⟩ := gradual_spec (o.randint s.kRandint 8 10).toNat
      s.current_pos target_pos s.current_time s.speed_multiplier hnp hmu
    obtain ⟨hbnd, hpw2, het⟩ := inv_append hb hpw gbnd gpw hct gend
    exact ⟨hbnd, List.mem_append_left _ hm, het, hmu, hpw2⟩
  | plateau =>
    obtain ⟨_, _, _, gpw, gend, gbnd⟩ := plateau_spec s.current_pos target_pos
      s.current_time s.speed_multiplier hmu
    obtain ⟨hbnd, hpw2, het⟩ := inv_append hb hpw gbnd gpw hct gend
    exact ⟨hbnd, List.mem_append_left _ hm, het, hmu, hpw2⟩

theorem loopBody_inv (o : Oracle) (hv : o.Valid) (s : GenState) (h : Inv s) :
    Inv (loopBody o s).1 := by
  have h1 : Inv (speedStep o s) := speedStep_inv o hv s h
  obtain ⟨hb, hm, hct, hmu, hpw⟩ := h1
  unfold loopBody
  dsimp only
  split
  · -- full-stroke branch
    have hT : 0 ≤ o.randint (speedStep o s).kRandint 10000 12000 := by
      have := hv.1 (speedStep o s).kRandint 10000 12000 (by norm_num)
      omega
    obtain ⟨_, _, _, gpw, gend, gbnd⟩ := full_stroke_spec
      (o.randint (speedStep o s).kRandint 10000 12000) (speedStep o s).current_pos
      (speedStep o s).current_time (speedStep o s).speed_multiplier hT
    obtain ⟨hbnd, hpw2, het⟩ := inv_append hb hpw gbnd gpw hct gend
    exact ⟨hbnd, List.mem_append_left _ hm, het, hmu, hpw2⟩
  · -- regular branch
    have h2 : Inv (pauseStep o (speedStep o s)) :=
      pauseStep_inv o (speedStep o s) ⟨hb, hm, hct, hmu, hpw⟩
    have h3 : Inv ({ pauseStep o (speedStep o s) with
        kMotion := (pauseStep o (speedStep o s)).kMotion + 1 }) := by
      obtain ⟨a1, a2, a3, a4, a5⟩ := h2
      exact ⟨a1, a2, a3, a4, a5⟩
    have h5 : Inv (chooseTarget o ({ pauseStep o (speedStep o s) with
        kMotion := (pauseStep o (speedStep o s)).kMotion + 1 })).2 :=
      chooseTarget_inv o _ h3
    have h7 := motionStep_inv o hv
      (chooseTarget o ({ pauseStep o (speedStep o s) with
        kMotion := (pauseStep o (speedStep o s)).kMotion + 1 })).1
      (List.getD motionChoices (o.motionChoice (pauseStep o (speedStep o s)).kMotion)
        MotionKind.wave)
      (chooseTarget o ({ pauseStep o (speedStep o s) with
        kMotion := (pauseStep o (speedStep o s)).kMotion + 1 })).2
      h5
    split
    · exact h7
    · exact h7

theorem initState_inv (o : Oracle) : Inv (initState o) := by
  refine ⟨?_, ?_, ?_, ?_, ?_⟩
  · intro a ha
    rcases List.mem_singleton.mp ha with rfl
    exact ⟨le_refl 0, le_refl 0⟩
  · exact List.mem_singleton.mpr rfl
  · exact le_refl 0
  · norm_num [initState]
  · exact List.pairwise_singleton _ _

theorem loopRun_inv (o : Oracle) (hv : o.Valid) :
    ∀ (fuel : ℕ) (s0 s : GenState), Inv s0 → loopRun o fuel s0 = some s → Inv s := by
  intro fuel
  induction fuel with
  | zero =>
    intro s0 s _ hr
    simp [loopRun] at hr
  | succ n ih =>
    intro s0 s h0 hr
    unfold loopRun at hr
    split at hr
    · dsimp only at hr
      split at hr
      · rw [Option.some_inj] at hr
        exact hr ▸ loopBody_inv o hv s0 h0
      · exact ih _ _ (loopBody_inv o hv s0 h0) hr
    · rw [Option.some_inj] at hr
      exact hr ▸ h0

theorem getLastD_mem : ∀ (l : List Action) (d : Action), l ≠ [] → l.getLastD d ∈ l := by
  intro l
  induction l with
  | nil => intro d h; exact absurd rfl h
  | cons b t ih =>
    intro d _
    cases t with
    | nil => exact List.mem_singleton.mpr rfl
    | cons c t' =>
      rw [List.getLastD_cons]
      exact List.mem_cons_of_mem b (ih b (by simp))

theorem mem_le_getLastD :
    ∀ (l : List Action), l.Pairwise leAt → ∀ (d a : Action), a ∈ l →
      a.«at» ≤ (l.getLastD d).«at» := by
  intro l
  induction l with
  | nil => intro _ d a ha; exact absurd ha (List.not_mem_nil a)
  | cons b t ih =>
    intro hpw d a ha
    rw [List.pairwise_cons] at hpw
    obtain ⟨hball, htpw⟩ := hpw
    cases t with
    | nil =>
      rcases List.mem_singleton.mp ha with rfl
      exact le_refl _
    | cons c t' =>
      rw [List.getLastD_cons]
      rcases List.mem_cons.mp ha with rfl | ha'
      · exact hball _ (getLastD_mem _ a (by simp))
      · exact ih htpw b a ha'

theorem buildActions_facts (o : Oracle) (fuel : ℕ) (hv : o.Valid) :
    ∀ l, buildActions o fuel = some l →
      l.Pairwise leAt ∧ (∀ a ∈ l, 0 ≤ a.«at») ∧ Action.mk 0 50 ∈ l := by
  intro l hl
  unfold buildActions at hl
  rcases hrun : loopRun o fuel (initState o) with _ | s
  · rw [hrun] at hl
    exact absurd hl (by simp)
  · rw [hrun] at hl
    have hInv := loopRun_inv o hv fuel (initState o) s (initState_inv o) hrun
    obtain ⟨hb, hm, hct, _, hpw⟩ := hInv
    simp only [Option.map_some', Option.map_some, Option.some_inj] at hl
    subst hl
    split
    case isTrue hlast =>
      have hle : ∀ a ∈ s.actions, a.«at» ≤ DURATION_MS := by
        intro a ha
        have h1 := mem_le_getLastD s.actions hpw (Action.mk 0 50) a ha
        omega
      refine ⟨?_, ?_, List.mem_append_left _ hm⟩
      · rw [List.pairwise_append]
        refine ⟨hpw, List.pairwise_singleton _ _, ?_⟩
        intro a ha b hb'
        rcases List.mem_singleton.mp hb' with rfl
        show a.«at» ≤ (Action.mk DURATION_MS 50).«at»
        dsimp only
        exact hle a ha
      · intro a ha
        rcases List.mem_append.mp ha with h | h
        · exact (hb a h).1
        · rcases List.mem_singleton.mp h with rfl
          show (0 : ℤ) ≤ DURATION_MS
          norm_num [DURATION_MS]
    case isFalse =>
      exact ⟨hpw, fun a ha => (hb a ha).1, hm⟩

theorem finalize_head_zero (l : List Action) (h0 : Action.mk 0 50 ∈ l)
    (hnn : ∀ a ∈ l, 0 ≤ a.«at») :
    (finalizeActions l).head?.map Action.«at» = some 0 ∧ finalizeActions l ≠ [] := by
  have hs := sortByAt_pairwise l
  have hmem : Action.mk 0 50 ∈ sortByAt l := mem_sortByAt.mpr h0
  cases hsl : sortByAt l with
  | nil =>
    rw [hsl] at hmem
    exact absurd hmem (List.not_mem_nil _)
  | cons b rest =>
    rw [hsl] at hs hmem
    have hbmem : b ∈ l := by
      rw [← mem_sortByAt (l := l), hsl]
      exact List.mem_cons_self b rest
    have hb0 : b.«at» = 0 := by
      rcases List.mem_cons.mp hmem with hbb | hmem'
      · rw [← hbb]
      · have h1 : b.«at» ≤ 0 := (List.pairwise_cons.mp hs).1 _ hmem'
        have h2 : 0 ≤ b.«at» := hnn b hbmem
        omega
    have hstep : dedupeLoop (b :: rest) (-1) = b :: dedupeLoop rest b.«at» := by
      have he : dedupeLoop (b :: rest) (-1) =
          if b.«at» ≠ (-1 : ℤ) then b :: dedupeLoop rest b.«at» else dedupeLoop rest (-1) := rfl
      rw [he, if_pos (by omega : b.«at» ≠ -1)]
    unfold finalizeActions
    rw [hsl, hstep]
    exact ⟨by simp [hb0], by simp⟩

/-- C3: every sequence the generation routine returns (for every valid draw
sequence and any fuel bound on the unbounded source loop) starts with an
action at `at = 0` and has strictly increasing `at` values after
deduplication. -/
theorem c3_final_sequence (o : Oracle) (fuel : ℕ) (hv : o.Valid) :
    finalOk (generate_edging_script o fuel) := by
  unfold generate_edging_script
  rcases hb : buildActions o fuel with _ | l
  · exact trivial
  · obtain ⟨hpw, hnn, hmem⟩ := buildActions_facts o fuel hv l hb
    show finalOk (some (finalizeActions l))
    obtain ⟨hhead, hne⟩ := finalize_head_zero l hmem hnn
    exact ⟨hne, hhead, dedupe_pairwise _ _ (sortByAt_pairwise l)⟩

/-- C9: at the moment the finalizer runs, the accumulated action list is
already nondecreasing by `at` (every append preserves the order), so the
stable sort leaves the list unchanged. -/
theorem c9_accumulated_sorted (o : Oracle) (fuel : ℕ) (hv : o.Valid) :
    preSortOk (buildActions o fuel) := by
  rcases hb : buildActions o fuel with _ | l
  · exact trivial
  · obtain ⟨hpw, _, _⟩ := buildActions_facts o fuel hv l hb
    exact ⟨hpw, sortByAt_of_pairwise hpw⟩

theorem oW_valid : Oracle.Valid oW := by
  refine ⟨?_, ?_, ?_, ?_, ?_⟩
  · intro k lo hi h
    show lo ≤ min hi (max lo _) ∧ min hi (max lo _) ≤ hi
    exact ⟨le_min h (le_max_left _ _), min_le_left _ _⟩
  · intro k
    exact ⟨(by norm_num : (0 : ℚ) ≤ 1 / 2), (by norm_num : (1 : ℚ) / 2 < 1)⟩
  · intro k a b h
    exact ⟨le_refl a, h⟩
  · intro k
    exact (by decide : (0 : ℕ) < 5)
  · intro k
    exact (by decide : (0 : ℕ) < 4)

set_option maxRecDepth 4000 in
set_option maxRecDepth 100000 in
/-- C3 witness: the statement applies to the concrete valid draw sequence
`oW` with fuel 400, on which the run in fact finishes. -/
theorem c3_witness :
    Oracle.Valid oW ∧ (generate_edging_script oW 400).isSome = true ∧
    finalOk (generate_edging_script oW 400) :=
  ⟨oW_valid, by decide, c3_final_sequence oW 400 oW_valid⟩

set_option maxRecDepth 4000 in
set_option maxRecDepth 100000 in
/-- C9 witness: the statement applies to the concrete valid draw sequence
`oW` with fuel 400, on which the run in fact finishes. -/
theorem c9_witness :
    Oracle.Valid oW ∧ (buildActions oW 400).isSome = true ∧
    preSortOk (buildActions oW 400) :=
  ⟨oW_valid, by decide, c9_accumulated_sorted oW 400 oW_valid⟩

theorem calculate_duration_zero (g : Bool) (m : ℚ) : calculate_duration 0 g m = 0 := by
  unfold calculate_duration
  cases g <;> simp [pyInt_zero]

theorem speedStep_bad (s : GenState) (h : BadInv s) : speedStep oBad s = s := by
  obtain ⟨h1, _, _, h4, _, _, _⟩ := h
  unfold speedStep
  rw [h1, h4, if_neg (by norm_num)]

theorem pauseStep_bad (s : GenState) (h : BadInv s) :
    pauseStep oBad s = { s with kRand := s.kRand + 1 } := by
  unfold pauseStep
  have hc : (decide (oBad.rand s.kRand < 3 / 20) && !s.in_speed_variation) = false := by
    have h1 : oBad.rand s.kRand = 1 / 2 := rfl
    rw [h1]
    norm_num
  rw [hc, if_neg Bool.false_ne_true]

theorem chooseTarget_bad (s : GenState) (h : BadInv s) :
    chooseTarget oBad s = (50, { s with kRand := s.kRand + 1, kRandint := s.kRandint + 1 }) := by
  obtain ⟨_, h2, _, _, _, _, _⟩ := h
  unfold chooseTarget
  dsimp only
  have hx : decide (oBad.rand s.kRand < 3 / 20) = false := by
    have h1 : oBad.rand s.kRand = 1 / 2 := rfl
    rw [h1]
    norm_num
  rw [hx, if_neg Bool.false_ne_true, h2]
  rw [if_neg (by decide : ¬ ((50 : ℤ) < 35)), if_neg (by decide : ¬ ((75 : ℤ) < 50))]
  have ht : oBad.randint s.kRandint 25 85 = 50 := rfl
  rw [ht]

theorem motionStep_bad (s : GenState) (h : BadInv s) :
    BadInv (motionStep oBad 50 MotionKind.wave s) := by
  obtain ⟨h1, h2, h3, h4, h5, h6, h7⟩ := h
  unfold motionStep
  dsimp only
  have hend : (generate_wave_motion (oBad.randint s.kRandint 5 7).toNat
      (fun i => oBad.randint (s.kRandint + 1 + i) 5 10) s.current_pos 50 s.current_time
      s.speed_multiplier).2 = 0 := by
    rw [wave_def]
    dsimp only
    rw [h2, h1]
    norm_num
    exact calculate_duration_zero _ _
  exact ⟨hend, rfl, h3, h4, h5, h6, h7⟩

theorem loopBody_bad (s : GenState) (h : BadInv s) :
    BadInv (loopBody oBad s).1 ∧ (loopBody oBad s).2 = false := by
  have hb := h
  obtain ⟨h1, h2, h3, h4, h5, h6, h7⟩ := h
  unfold loopBody
  dsimp only
  rw [speedStep_bad s hb]
  rw [h5, h6, h1]
  rw [if_neg (by decide)]
  rw [pauseStep_bad s hb]
  set s2 := { s with kRand := s.kRand + 1 } with hs2def
  have hbi2 : BadInv { s2 with kMotion := s2.kMotion + 1 } := ⟨h1, h2, h3, h4, h5, h6, h7⟩
  rw [chooseTarget_bad { s2 with kMotion := s2.kMotion + 1 } hbi2]
  dsimp only
  rw [show (List.getD motionChoices (oBad.motionChoice s2.kMotion) MotionKind.wave) =
    MotionKind.wave from rfl]
  have hbi3 : BadInv { { s2 with kMotion := s2.kMotion + 1 } with
      kRand := ({ s2 with kMotion := s2.kMotion + 1 }).kRand + 1,
      kRandint := ({ s2 with kMotion := s2.kMotion + 1 }).kRandint + 1 } :=
    ⟨h1, h2, h3, h4, h5, h6, h7⟩
  have hms := motionStep_bad _ hbi3
  rw [hms.1]
  rw [if_neg (by decide)]
  exact ⟨hms, rfl⟩

theorem initState_oBad : BadInv (initState oBad) := by
  refine ⟨rfl, rfl, rfl, rfl, by decide, rfl, rfl⟩

theorem loopRun_bad : ∀ (n : ℕ) (s : GenState), BadInv s → loopRun oBad n s = none := by
  intro n
  induction n with
  | zero => intro s _; rfl
  | succ k ih =>
    intro s h
    unfold loopRun
    rw [h.1, if_pos (by norm_num [DURATION_MS])]
    dsimp only
    obtain ⟨hbi, hbf⟩ := loopBody_bad s h
    rw [hbf, if_neg Bool.false_ne_true]
    exact ih _ hbi

theorem oBad_valid : Oracle.Valid oBad := by
  refine ⟨?_, ?_, ?_, ?_, ?_⟩
  · intro k lo hi h
    show lo ≤ min hi (max lo _) ∧ min hi (max lo _) ≤ hi
    exact ⟨le_min h (le_max_left _ _), min_le_left _ _⟩
  · intro k
    exact ⟨(by norm_num : (0 : ℚ) ≤ 1 / 2), (by norm_num : (1 : ℚ) / 2 < 1)⟩
  · intro k a b h
    exact ⟨le_refl a, h⟩
  · intro k
    exact (by decide : (0 : ℕ) < 5)
  · intro k
    exact (by decide : (0 : ℕ) < 4)

/-- C4: the claim fails on the code — there is a valid draw sequence (`oBad`,
where every mid-zone target draw returns the current position 50, so every
motion segment has zero distance and zero duration) on which `current_time`
stays 0 forever; the safety-valve overshoot check never fires and the
scheduler loop does not terminate: the fuelled run returns `none` for every
fuel bound. -/
theorem c4_nontermination :
    Oracle.Valid oBad ∧ ∀ n : ℕ, loopRun oBad n (initState oBad) = none :=
  ⟨oBad_valid, fun n => loopRun_bad n _ initState_oBad⟩

end Edging
